import Mathlib

/-!
Verification of the go-github metadata / endpoint-extraction tooling.

The development shallowly embeds the Go sources of the repository:

* the layered metadata document and its resolution, canonicalization,
  validation and save-time sorting (tools/internal: metadata handling), and
* the static body analyzer that recovers the HTTP verb and URL templates of
  each service method from its syntax tree (tools/internal: internal.go),
  together with the helper-resolution pass over the extracted endpoint map.

Go values are embedded as Lean structures; Go maps are embedded as
association lists updated in place (`opLookup` / `opInsert`), which matches
Go map assignment up to iteration order; where the Go code's observable
behaviour depends on map iteration order, the order is taken as an explicit
parameter.  Go's in-place pointer mutation during `Metadata.resolve` is
additionally embedded against an explicit store of allocated `Operation`
records so that the no-mutation (frame) property of the three layers is a
real statement.
-/

namespace GoGithub

/-- The character U+007B (left curly brace), written via its code point. -/
def lbraceChar : Char := Char.ofNat 123

/-- The character U+0022 (double quote), written via its code point. -/
def quoteChar : Char := Char.ofNat 34

/-- The character U+005C (backslash), written via its code point. -/
def backslashChar : Char := Char.ofNat 92

/-- One operation record of the metadata document
(`Operation` in tools/internal, fields `name`, `documentation_url`,
`openapi_files`). -/
structure Operation where
  name : String
  documentationURL : String
  openAPIFiles : List String
deriving DecidableEq, Repr

/-- `Operation.clone` from the source: a field-by-field copy (the
`OpenAPIFiles` slice is copied; in the value model this rebuilds the
record). -/
def Operation.clone (o : Operation) : Operation :=
  { name := o.name
    documentationURL := o.documentationURL
    openAPIFiles := o.openAPIFiles }

theorem Operation.clone_eq (o : Operation) : o.clone = o := rfl

/-- One method-to-operations mapping entry (`Method` in the source). -/
structure Method where
  name : String
  opNames : List String
deriving DecidableEq, Repr

/-- The persisted metadata document (`Metadata` in the source): the
method mapping, the three operation layers and the openapi commit marker.
The memoized `resolvedOps` cache is not part of the value; resolution is
the pure function `Metadata.resolveOps` below. -/
structure Metadata where
  methods : List Method
  manualOps : List Operation
  overrideOps : List Operation
  gitCommit : String
  openapiOps : List Operation
deriving DecidableEq, Repr

/-! ### URL-template normalization (`normalizedURL`, `parseOpName`)

`normalizedURL` in the source splits on "/", replaces each segment that
starts with a left brace by "*", and joins with "/".  The process-wide
memoization cache is behaviourally the identity (it stores the pure result
keyed by the raw input), so the embedding is the pure function. -/

/-- `strings.Split(u, "/")` on character lists. -/
def splitOnSlash : List Char → List (List Char)
  | [] => [[]]
  | c :: rest =>
    match splitOnSlash rest with
    | [] => [[]]
    | h :: t => if c = '/' then [] :: h :: t else (c :: h) :: t

/-- `strings.Join(parts, "/")` on character lists. -/
def joinSlash : List (List Char) → List Char
  | [] => []
  | [s] => s
  | s :: rest => s ++ '/' :: joinSlash rest

/-- The per-segment replacement of `normalizedURL`: a nonempty segment
whose first character is a left brace becomes "*". -/
def normSeg (s : List Char) : List Char :=
  if s.head? = some lbraceChar then ['*'] else s

/-- `normalizedURL` from the source: every templated path segment is
replaced by `*`. -/
def normalizedURL (u : String) : String :=
  String.mk (joinSlash ((splitOnSlash u.data).map normSeg))

/-- `parseOpName` from the source: `strings.Cut(id, " ")` — the verb is
everything before the first space, the url everything after it (empty when
there is no space). -/
def parseOpName (id : String) : String × String :=
  let verb := id.data.takeWhile (fun c => c ≠ ' ')
  let rest := id.data.dropWhile (fun c => c ≠ ' ')
  (String.mk verb, String.mk rest.tail)

/-- `normalizedOpName` from the source. -/
def normalizedOpName (name : String) : String :=
  let p := parseOpName name
  p.1 ++ " " ++ normalizedURL p.2

theorem splitOnSlash_ne_nil (l : List Char) : splitOnSlash l ≠ [] := by
  cases l with
  | nil => simp [splitOnSlash]
  | cons c rest =>
    simp only [splitOnSlash]
    cases h : splitOnSlash rest with
    | nil => simp
    | cons hd tl => by_cases hc : c = '/' <;> simp [hc]

theorem splitOnSlash_cons_eq (c : Char) (rest : List Char) :
    splitOnSlash (c :: rest) =
      if c = '/' then [] :: splitOnSlash rest
      else (c :: (splitOnSlash rest).headI) :: (splitOnSlash rest).tail := by
  cases h : splitOnSlash rest with
  | nil => exact absurd h (splitOnSlash_ne_nil rest)
  | cons hd tl =>
    simp only [splitOnSlash, h]
    by_cases hc : c = '/' <;> simp [hc]

theorem not_slash_mem_of_mem_splitOnSlash (l : List Char) :
    ∀ s ∈ splitOnSlash l, '/' ∉ s := by
  induction l with
  | nil =>
    intro s hs
    simp [splitOnSlash] at hs
    simp [hs]
  | cons c rest ih =>
    intro s hs
    cases h : splitOnSlash rest with
    | nil => exact absurd h (splitOnSlash_ne_nil rest)
    | cons hd tl =>
      rw [splitOnSlash_cons_eq, h] at hs
      simp only [List.headI_cons, List.tail_cons] at hs
      have ihhd : '/' ∉ hd := ih hd (by rw [h]; exact List.mem_cons_self _ _)
      have ihtl : ∀ x ∈ tl, '/' ∉ x := fun x hx => ih x (by rw [h]; exact List.mem_cons_of_mem _ hx)
      by_cases hc : c = '/'
      · rw [if_pos hc] at hs
        rcases List.mem_cons.mp hs with rfl | hs2
        · simp
        · rcases List.mem_cons.mp hs2 with rfl | hs3
          · exact ihhd
          · exact ihtl s hs3
      · rw [if_neg hc] at hs
        rcases List.mem_cons.mp hs with rfl | hs2
        · intro hmem
          rcases List.mem_cons.mp hmem with h1 | h1
          · exact hc h1.symm
          · exact ihhd h1
        · exact ihtl s hs2

theorem splitOnSlash_no_slash (p : List Char) (hp : '/' ∉ p) :
    splitOnSlash p = [p] := by
  induction p with
  | nil => rfl
  | cons c rest ih =>
    have hc : c ≠ '/' := fun h => hp (by rw [h]; exact List.mem_cons_self _ _)
    have hrest : '/' ∉ rest := fun h => hp (List.mem_cons_of_mem _ h)
    rw [splitOnSlash_cons_eq, ih hrest]
    simp [hc]

theorem splitOnSlash_append_slash (p r : List Char) (hp : '/' ∉ p) :
    splitOnSlash (p ++ '/' :: r) = p :: splitOnSlash r := by
  induction p with
  | nil =>
    rw [List.nil_append, splitOnSlash_cons_eq]
    simp
  | cons c p' ih =>
    have hc : c ≠ '/' := fun h => hp (by rw [h]; exact List.mem_cons_self _ _)
    have hp' : '/' ∉ p' := fun h => hp (List.mem_cons_of_mem _ h)
    rw [List.cons_append, splitOnSlash_cons_eq, ih hp']
    simp [hc]

theorem splitOnSlash_joinSlash (parts : List (List Char))
    (hne : parts ≠ []) (hns : ∀ s ∈ parts, '/' ∉ s) :
    splitOnSlash (joinSlash parts) = parts := by
  induction parts with
  | nil => exact absurd rfl hne
  | cons p rest ih =>
    cases rest with
    | nil =>
      simp only [joinSlash]
      exact splitOnSlash_no_slash p (hns p (List.mem_cons_self _ _))
    | cons q rest' =>
      have hjoin : joinSlash (p :: q :: rest') = p ++ '/' :: joinSlash (q :: rest') := rfl
      rw [hjoin, splitOnSlash_append_slash p _ (hns p (List.mem_cons_self _ _))]
      rw [ih (by simp) (fun s hs => hns s (List.mem_cons_of_mem _ hs))]

theorem normSeg_idem (s : List Char) : normSeg (normSeg s) = normSeg s := by
  by_cases h : s.head? = some lbraceChar
  · have h1 : normSeg s = ['*'] := by simp only [normSeg, if_pos h]
    rw [h1]
    decide
  · have h1 : normSeg s = s := by simp only [normSeg, if_neg h]
    rw [h1]
    exact h1

theorem normSeg_no_slash (s : List Char) (h : '/' ∉ s) : '/' ∉ normSeg s := by
  unfold normSeg
  split
  · decide
  · exact h

/-- C7 helper: the segments of a normalized URL. -/
theorem normalizedURL_data (u : String) :
    (normalizedURL u).data = joinSlash ((splitOnSlash u.data).map normSeg) := rfl

/-- **C7.** URL-template normalization is idempotent: normalizing an
already-normalized URL template yields the same string, i.e. for every
string `u`, `normalizedURL (normalizedURL u) = normalizedURL u`. -/
theorem normalizedURL_idempotent (u : String) :
    normalizedURL (normalizedURL u) = normalizedURL u := by
  have hparts : ∀ s ∈ (splitOnSlash u.data).map normSeg, '/' ∉ s := by
    intro s hs
    rcases List.mem_map.mp hs with ⟨t, ht, rfl⟩
    exact normSeg_no_slash t (not_slash_mem_of_mem_splitOnSlash u.data t ht)
  have hne : (splitOnSlash u.data).map normSeg ≠ [] := by
    intro h
    exact splitOnSlash_ne_nil u.data (List.map_eq_nil_iff.mp h)
  have hsplit :
      splitOnSlash (normalizedURL u).data = (splitOnSlash u.data).map normSeg := by
    rw [normalizedURL_data]
    exact splitOnSlash_joinSlash _ hne hparts
  show String.mk (joinSlash ((splitOnSlash (normalizedURL u).data).map normSeg)) = _
  rw [hsplit, List.map_map]
  have : (splitOnSlash u.data).map (normSeg ∘ normSeg) = (splitOnSlash u.data).map normSeg :=
    List.map_congr_left (fun s _ => normSeg_idem s)
  rw [this]
  rfl

/-! ### The resolved operation view (`Metadata.resolve`)

`resolve` builds `resolvedOps : map[string]*Operation`: openapi entries seed
the map, manual entries seed or overwrite by name, then each override entry
is applied — inserted as a clone when the name is absent, and its non-empty
`DocumentationURL` / non-empty `OpenAPIFiles` replace the fields of the
entry stored under its name.  The Go map is embedded as an association list
with in-place update (`opInsert`), which models Go map assignment. -/

/-- Association-list embedding of `map[string]*Operation`. -/
abbrev OpMap := List (String × Operation)

/-- Go map read `m[k]`. -/
def opLookup : OpMap → String → Option Operation
  | [], _ => none
  | (k, v) :: rest, n => if k = n then some v else opLookup rest n

/-- Go map assignment `m[k] = v` (replaces the existing binding, else
appends a new one). -/
def opInsert : OpMap → String → Operation → OpMap
  | [], n, v => [(n, v)]
  | (k, w) :: rest, n, v =>
      if k = n then (k, v) :: rest else (k, w) :: opInsert rest n v

/-- The two seeding loops of `resolve`: each layer entry's clone is stored
under its name, overwriting earlier bindings. -/
def seedOps (acc : OpMap) (ops : List Operation) : OpMap :=
  ops.foldl (fun m op => opInsert m op.name op.clone) acc

/-- First block of the override loop: when the override's name is absent
from the map, the override's clone is inserted as a new standalone entry. -/
def applyOverrideInsert (acc : OpMap) (ov : Operation) : OpMap :=
  match opLookup acc ov.name with
  | none => opInsert acc ov.name ov
  | some _ => acc

/-- Second block of the override loop: a non-empty override
`documentationURL` replaces the stored entry's field. -/
def applyOverrideDoc (acc : OpMap) (ov : Operation) : OpMap :=
  if ov.documentationURL = "" then acc
  else
    match opLookup acc ov.name with
    | some b => opInsert acc ov.name { b with documentationURL := ov.documentationURL }
    | none => acc

/-- Third block of the override loop: a non-empty override `openAPIFiles`
list replaces the stored entry's list. -/
def applyOverrideFiles (acc : OpMap) (ov : Operation) : OpMap :=
  if ov.openAPIFiles = [] then acc
  else
    match opLookup acc ov.name with
    | some b => opInsert acc ov.name { b with openAPIFiles := ov.openAPIFiles }
    | none => acc

/-- The body of the override loop of `resolve` for one override entry: the
entry is cloned, inserted when absent, and its non-empty fields replace the
stored entry's fields. -/
def applyOverride (acc : OpMap) (ov0 : Operation) : OpMap :=
  applyOverrideFiles (applyOverrideDoc (applyOverrideInsert acc ov0.clone) ov0.clone) ov0.clone

/-- The base map of `resolve` before overrides: openapi entries seed the
map, then manual entries seed or overwrite by name. -/
def baseOps (m : Metadata) : OpMap :=
  seedOps (seedOps [] m.openapiOps) m.manualOps

/-- `Metadata.resolve`: the memoized resolved view as a pure function of
the three layers. -/
def Metadata.resolveOps (m : Metadata) : OpMap :=
  m.overrideOps.foldl applyOverride (baseOps m)

/-- `Metadata.getOperation`. -/
def Metadata.getOperation (m : Metadata) (name : String) : Option Operation :=
  opLookup m.resolveOps name

theorem opLookup_opInsert_self (m : OpMap) (n : String) (v : Operation) :
    opLookup (opInsert m n v) n = some v := by
  induction m with
  | nil => simp [opInsert, opLookup]
  | cons kv rest ih =>
    obtain ⟨k, w⟩ := kv
    by_cases hk : k = n <;> simp [opInsert, opLookup, hk, ih]

theorem opLookup_opInsert_ne (m : OpMap) (n k : String) (v : Operation)
    (h : n ≠ k) : opLookup (opInsert m n v) k = opLookup m k := by
  induction m with
  | nil => simp [opInsert, opLookup, h]
  | cons kv rest ih =>
    obtain ⟨k', w⟩ := kv
    by_cases hk : k' = n
    · subst hk
      simp [opInsert, opLookup, h]
    · simp [opInsert, opLookup, hk, ih]

/-- The merged entry produced by an override hitting an existing base
entry: non-empty override fields replace the base entry's fields. -/
def mergedOp (b ov : Operation) : Operation :=
  { name := b.name
    documentationURL :=
      if ov.documentationURL = "" then b.documentationURL else ov.documentationURL
    openAPIFiles :=
      if ov.openAPIFiles = [] then b.openAPIFiles else ov.openAPIFiles }

theorem applyOverrideInsert_lookup_hit (acc : OpMap) (ov b : Operation)
    (h : opLookup acc ov.name = some b) :
    applyOverrideInsert acc ov = acc := by
  unfold applyOverrideInsert
  rw [h]

theorem applyOverrideDoc_lookup_hit (acc : OpMap) (ov b : Operation)
    (h : opLookup acc ov.name = some b) :
    opLookup (applyOverrideDoc acc ov) ov.name = some
      { b with documentationURL :=
          if ov.documentationURL = "" then b.documentationURL
          else ov.documentationURL } := by
  unfold applyOverrideDoc
  by_cases hdoc : ov.documentationURL = ""
  · rw [if_pos hdoc, h, if_pos hdoc]
  · rw [if_neg hdoc, h, opLookup_opInsert_self, if_neg hdoc]

theorem applyOverrideFiles_lookup_hit (acc : OpMap) (ov b : Operation)
    (h : opLookup acc ov.name = some b) :
    opLookup (applyOverrideFiles acc ov) ov.name = some
      { b with openAPIFiles :=
          if ov.openAPIFiles = [] then b.openAPIFiles else ov.openAPIFiles } := by
  unfold applyOverrideFiles
  by_cases hfiles : ov.openAPIFiles = []
  · rw [if_pos hfiles, h, if_pos hfiles]
  · rw [if_neg hfiles, h, opLookup_opInsert_self, if_neg hfiles]

theorem applyOverride_lookup_hit (acc : OpMap) (ov : Operation) (b : Operation)
    (h : opLookup acc ov.name = some b) :
    opLookup (applyOverride acc ov) ov.name = some (mergedOp b ov) := by
  unfold applyOverride
  rw [Operation.clone_eq]
  rw [applyOverrideInsert_lookup_hit acc ov b h]
  have hdoc := applyOverrideDoc_lookup_hit acc ov b h
  have hfiles := applyOverrideFiles_lookup_hit (applyOverrideDoc acc ov) ov _ hdoc
  rw [hfiles]
  rfl

theorem applyOverrideInsert_lookup_ne (acc : OpMap) (ov : Operation) (k : String)
    (h : ov.name ≠ k) :
    opLookup (applyOverrideInsert acc ov) k = opLookup acc k := by
  unfold applyOverrideInsert
  cases h0 : opLookup acc ov.name
  · exact opLookup_opInsert_ne _ _ _ _ h
  · rfl

theorem applyOverrideDoc_lookup_ne (acc : OpMap) (ov : Operation) (k : String)
    (h : ov.name ≠ k) :
    opLookup (applyOverrideDoc acc ov) k = opLookup acc k := by
  unfold applyOverrideDoc
  by_cases hdoc : ov.documentationURL = ""
  · rw [if_pos hdoc]
  · rw [if_neg hdoc]
    cases h0 : opLookup acc ov.name
    · rfl
    · exact opLookup_opInsert_ne _ _ _ _ h

theorem applyOverrideFiles_lookup_ne (acc : OpMap) (ov : Operation) (k : String)
    (h : ov.name ≠ k) :
    opLookup (applyOverrideFiles acc ov) k = opLookup acc k := by
  unfold applyOverrideFiles
  by_cases hfiles : ov.openAPIFiles = []
  · rw [if_pos hfiles]
  · rw [if_neg hfiles]
    cases h0 : opLookup acc ov.name
    · rfl
    · exact opLookup_opInsert_ne _ _ _ _ h

theorem applyOverride_lookup_ne (acc : OpMap) (ov : Operation) (k : String)
    (h : ov.name ≠ k) :
    opLookup (applyOverride acc ov) k = opLookup acc k := by
  unfold applyOverride
  rw [Operation.clone_eq]
  rw [applyOverrideFiles_lookup_ne _ _ _ h, applyOverrideDoc_lookup_ne _ _ _ h,
    applyOverrideInsert_lookup_ne _ _ _ h]

theorem foldl_applyOverride_ne (l : List Operation) (acc : OpMap) (k : String)
    (h : ∀ x ∈ l, x.name ≠ k) :
    opLookup (l.foldl applyOverride acc) k = opLookup acc k := by
  induction l generalizing acc with
  | nil => rfl
  | cons x rest ih =>
    rw [List.foldl_cons, ih _ (fun y hy => h y (List.mem_cons_of_mem _ hy)),
      applyOverride_lookup_ne _ _ _ (h x (List.mem_cons_self _ _))]

/-- **C1.** For every `Metadata` document and operation name present both in
the merged base view (openapi entries seeded, manual entries seeded or
overwritten by name) and in the override layer, the resolved view's entry
for that name has the override's `documentationURL` when it is non-empty and
the base entry's when the override's is empty, and likewise the override's
non-empty `openAPIFiles` list replaces the base entry's list.  The override
layer's names are assumed unique, which is the document invariant. -/
theorem resolve_override_precedence (m : Metadata) (ov b : Operation)
    (hmem : ov ∈ m.overrideOps)
    (hnodup : (m.overrideOps.map Operation.name).Nodup)
    (hbase : opLookup (baseOps m) ov.name = some b) :
    opLookup m.resolveOps ov.name = some
      { name := b.name
        documentationURL :=
          if ov.documentationURL = "" then b.documentationURL
          else ov.documentationURL
        openAPIFiles :=
          if ov.openAPIFiles = [] then b.openAPIFiles else ov.openAPIFiles } := by
  obtain ⟨s, t, hst⟩ := List.append_of_mem hmem
  have hmap : (m.overrideOps.map Operation.name) =
      s.map Operation.name ++ ov.name :: t.map Operation.name := by
    rw [hst]; simp
  rw [hmap] at hnodup
  have hs : ∀ x ∈ s, x.name ≠ ov.name := by
    intro x hx hEq
    have h1 : ov.name ∈ s.map Operation.name := hEq ▸ List.mem_map_of_mem _ hx
    have hdisj := (List.nodup_append.mp hnodup).2.2
    exact hdisj h1 (List.mem_cons_self _ _)
  have ht : ∀ x ∈ t, x.name ≠ ov.name := by
    intro x hx hEq
    have h1 : ov.name ∈ t.map Operation.name := hEq ▸ List.mem_map_of_mem _ hx
    have h2 := (List.nodup_append.mp hnodup).2.1
    exact (List.nodup_cons.mp h2).1 h1
  unfold Metadata.resolveOps
  rw [hst, List.foldl_append, List.foldl_cons]
  rw [foldl_applyOverride_ne t _ _ ht]
  rw [applyOverride_lookup_hit _ _ b
    (by rw [foldl_applyOverride_ne s _ _ hs]; exact hbase)]
  rfl

/-- Witness for C1 at a concrete document: an override with a non-empty
`documentationURL` and empty `openAPIFiles` over a manual base entry. -/
def c1Meta : Metadata :=
  { methods := []
    manualOps := [{ name := "GET /a", documentationURL := "manual-doc", openAPIFiles := ["m.json"] }]
    overrideOps := [{ name := "GET /a", documentationURL := "override-doc", openAPIFiles := [] }]
    gitCommit := ""
    openapiOps := [{ name := "GET /a", documentationURL := "openapi-doc", openAPIFiles := ["o.json"] }] }

theorem resolve_override_precedence_witness :
    opLookup c1Meta.resolveOps "GET /a" = some
      { name := "GET /a", documentationURL := "override-doc", openAPIFiles := ["m.json"] } := by
  have h := resolve_override_precedence c1Meta
    { name := "GET /a", documentationURL := "override-doc", openAPIFiles := [] }
    { name := "GET /a", documentationURL := "manual-doc", openAPIFiles := ["m.json"] }
    (by decide) (by decide) (by decide)
  exact h

/-! ### Pointer-level embedding of `resolve` (frame property)

In Go the layers hold `*Operation` pointers and the override loop mutates
the struct stored under `m.resolvedOps[override.Name]` in place.  To state
that `resolve` never mutates the layer entries, the heap of `Operation`
records is made explicit: a store of allocated records, pointers are store
indices, the layers are pointer lists, and `resolve` allocates clones and
writes through resolved-map pointers exactly as the source does. -/

/-- Generic association list lookup (Go map read). -/
def alistLookup {β : Type} : List (String × β) → String → Option β
  | [], _ => none
  | (k, v) :: rest, n => if k = n then some v else alistLookup rest n

/-- Generic association list insert (Go map assignment). -/
def alistInsert {β : Type} : List (String × β) → String → β → List (String × β)
  | [], n, v => [(n, v)]
  | (k, w) :: rest, n, v =>
      if k = n then (k, v) :: rest else (k, w) :: alistInsert rest n v

theorem alistLookup_mem {β : Type} (m : List (String × β)) (k : String) (v : β)
    (h : alistLookup m k = some v) : (k, v) ∈ m := by
  induction m with
  | nil => simp [alistLookup] at h
  | cons kv rest ih =>
    obtain ⟨k', w⟩ := kv
    by_cases hk : k' = k
    · subst hk
      rw [alistLookup, if_pos rfl] at h
      cases h
      exact List.mem_cons_self _ _
    · rw [alistLookup, if_neg hk] at h
      exact List.mem_cons_of_mem _ (ih h)

theorem mem_alistInsert {β : Type} (m : List (String × β)) (k : String) (v : β)
    (kv : String × β) (h : kv ∈ alistInsert m k v) : kv ∈ m ∨ kv = (k, v) := by
  induction m with
  | nil =>
    simp [alistInsert] at h
    exact Or.inr h
  | cons kw rest ih =>
    obtain ⟨k', w⟩ := kw
    by_cases hk : k' = k
    · rw [alistInsert, if_pos hk] at h
      rcases List.mem_cons.mp h with rfl | h2
      · exact Or.inr (by rw [hk])
      · exact Or.inl (List.mem_cons_of_mem _ h2)
    · rw [alistInsert, if_neg hk] at h
      rcases List.mem_cons.mp h with rfl | h2
      · exact Or.inl (List.mem_cons_self _ _)
      · rcases ih h2 with h3 | h3
        · exact Or.inl (List.mem_cons_of_mem _ h3)
        · exact Or.inr h3

/-- The heap of allocated `Operation` records; a pointer is an index. -/
abbrev Store := List Operation

/-- Pointer dereference. -/
def Store.read (st : Store) (p : Nat) : Option Operation := st[p]?

/-- In-place mutation of the record a pointer refers to. -/
def Store.write (st : Store) (p : Nat) (op : Operation) : Store := st.set p op

/-- Allocation of a fresh record (returns the new store and the pointer). -/
def Store.alloc (st : Store) (op : Operation) : Store × Nat := (st ++ [op], st.length)

/-- Fallback for dereferencing an invalid pointer (Go would panic; the
frame theorems only concern valid stores). -/
def defaultOperation : Operation := { name := "", documentationURL := "", openAPIFiles := [] }

/-- The two seeding loops of `resolve` at pointer level: each layer entry
is dereferenced, its clone allocated and stored in the map by name. -/
def resolveSeedStore (st : Store) (m : List (String × Nat)) :
    List Nat → Store × List (String × Nat)
  | [] => (st, m)
  | p :: rest =>
    let op := (st.read p).getD defaultOperation
    let al := st.alloc op.clone
    resolveSeedStore al.1 (alistInsert m op.name al.2) rest

/-- The in-place field mutation `m.resolvedOps[name].Field = v` at pointer
level: dereference the map's pointer (when the lookup succeeded) and write
the record back with one field replaced. -/
def storeUpdateField (st : Store) (q? : Option Nat) (f : Operation → Operation) : Store :=
  match q? with
  | some q =>
    match st.read q with
    | some b => st.write q (f b)
    | none => st
  | none => st

/-- The override loop of `resolve` at pointer level: the override entry is
cloned into a fresh allocation, inserted when its name is absent, and the
non-empty fields are written through the map's pointer. -/
def resolveOverrideStore (st : Store) (m : List (String × Nat)) :
    List Nat → Store × List (String × Nat)
  | [] => (st, m)
  | p :: rest =>
    let ov := (st.read p).getD defaultOperation
    let al := st.alloc ov.clone
    let m1 :=
      match alistLookup m ov.name with
      | none => alistInsert m ov.name al.2
      | some _ => m
    let st2 :=
      if ov.documentationURL = "" then al.1
      else storeUpdateField al.1 (alistLookup m1 ov.name)
        (fun b => { b with documentationURL := ov.documentationURL })
    let st3 :=
      if ov.openAPIFiles = [] then st2
      else storeUpdateField st2 (alistLookup m1 ov.name)
        (fun b => { b with openAPIFiles := ov.openAPIFiles })
    resolveOverrideStore st3 m1 rest

/-- `Metadata.resolve` at pointer level: seed from the openapi layer, then
from the manual layer, then apply the override layer. -/
def resolveStore (st : Store) (openapi manual override : List Nat) :
    Store × List (String × Nat) :=
  let s1 := resolveSeedStore st [] openapi
  let s2 := resolveSeedStore s1.1 s1.2 manual
  resolveOverrideStore s2.1 s2.2 override

theorem Store.read_alloc_lt (st : Store) (op : Operation) (p : Nat)
    (hp : p < st.length) : (st.alloc op).1.read p = st.read p := by
  unfold Store.alloc Store.read
  exact List.getElem?_append_left hp

theorem Store.read_write_ne (st : Store) (op : Operation) (p q : Nat)
    (h : p ≠ q) : (st.write q op).read p = st.read p := by
  unfold Store.write Store.read
  exact List.getElem?_set_ne (fun hEq => h hEq.symm)

theorem Store.length_write (st : Store) (op : Operation) (q : Nat) :
    (st.write q op).length = st.length := by
  unfold Store.write
  exact List.length_set st q op

theorem storeUpdateField_read_lt (st : Store) (q? : Option Nat)
    (f : Operation → Operation) (n0 p : Nat) (hp : p < n0)
    (hq : ∀ q, q? = some q → n0 ≤ q) :
    (storeUpdateField st q? f).read p = st.read p := by
  cases q? with
  | none => rfl
  | some q =>
    show (match st.read q with
      | some b => st.write q (f b)
      | none => st).read p = st.read p
    cases hb : st.read q with
    | none => rfl
    | some b =>
      have h1 := hq q rfl
      exact Store.read_write_ne st (f b) p q (by omega)

theorem storeUpdateField_length (st : Store) (q? : Option Nat)
    (f : Operation → Operation) :
    (storeUpdateField st q? f).length = st.length := by
  cases q? with
  | none => rfl
  | some q =>
    show (match st.read q with
      | some b => st.write q (f b)
      | none => st).length = st.length
    cases hb : st.read q with
    | none => rfl
    | some b => exact Store.length_write st (f b) q

theorem resolveSeedStore_frame (ptrs : List Nat) (st : Store)
    (m : List (String × Nat)) (n0 : Nat)
    (hlen : n0 ≤ st.length) (hm : ∀ kv ∈ m, n0 ≤ kv.2) :
    n0 ≤ (resolveSeedStore st m ptrs).1.length ∧
    (∀ kv ∈ (resolveSeedStore st m ptrs).2, n0 ≤ kv.2) ∧
    (∀ p, p < n0 → (resolveSeedStore st m ptrs).1.read p = st.read p) := by
  induction ptrs generalizing st m with
  | nil => exact ⟨hlen, hm, fun p _ => rfl⟩
  | cons q rest ih =>
    simp only [resolveSeedStore]
    set op := (st.read q).getD defaultOperation with hop
    have hlen1 : n0 ≤ (st.alloc op.clone).1.length := by
      unfold Store.alloc
      simp only [List.length_append, List.length_singleton]
      omega
    have hm1 : ∀ kv ∈ alistInsert m op.name (st.alloc op.clone).2, n0 ≤ kv.2 := by
      intro kv hkv
      rcases mem_alistInsert _ _ _ _ hkv with h1 | h1
      · exact hm kv h1
      · rw [h1]
        exact hlen
    obtain ⟨ih1, ih2, ih3⟩ := ih (st.alloc op.clone).1 (alistInsert m op.name (st.alloc op.clone).2) hlen1 hm1
    refine ⟨ih1, ih2, fun p hp => ?_⟩
    rw [ih3 p hp, Store.read_alloc_lt st _ p (lt_of_lt_of_le hp hlen)]

theorem resolveOverrideStore_frame (ptrs : List Nat) (st : Store)
    (m : List (String × Nat)) (n0 : Nat)
    (hlen : n0 ≤ st.length) (hm : ∀ kv ∈ m, n0 ≤ kv.2) :
    n0 ≤ (resolveOverrideStore st m ptrs).1.length ∧
    (∀ kv ∈ (resolveOverrideStore st m ptrs).2, n0 ≤ kv.2) ∧
    (∀ p, p < n0 → (resolveOverrideStore st m ptrs).1.read p = st.read p) := by
  induction ptrs generalizing st m with
  | nil => exact ⟨hlen, hm, fun p _ => rfl⟩
  | cons q rest ih =>
    simp only [resolveOverrideStore]
    set ov := (st.read q).getD defaultOperation with hov
    set al := st.alloc ov.clone with hal
    have hlenal : n0 ≤ al.1.length := by
      rw [hal]
      unfold Store.alloc
      simp only [List.length_append, List.length_singleton]
      omega
    have hreadal : ∀ p, p < n0 → al.1.read p = st.read p := fun p hp =>
      Store.read_alloc_lt st _ p (lt_of_lt_of_le hp hlen)
    set m1 :=
      match alistLookup m ov.name with
      | none => alistInsert m ov.name al.2
      | some _ => m with hm1def
    have hm1 : ∀ kv ∈ m1, n0 ≤ kv.2 := by
      rw [hm1def]
      cases hlook : alistLookup m ov.name
      · intro kv hkv
        rcases mem_alistInsert _ _ _ _ hkv with h1 | h1
        · exact hm kv h1
        · rw [h1, hal]
          exact hlen
      · exact hm
    have hqbound : ∀ qx, alistLookup m1 ov.name = some qx → n0 ≤ qx :=
      fun qx hq => hm1 _ (alistLookup_mem _ _ _ hq)
    set st2 :=
      if ov.documentationURL = "" then al.1
      else storeUpdateField al.1 (alistLookup m1 ov.name)
        (fun b => { b with documentationURL := ov.documentationURL }) with hst2def
    have hst2read : ∀ p, p < n0 → st2.read p = al.1.read p := by
      intro p hp
      rw [hst2def]
      by_cases hdoc : ov.documentationURL = ""
      · rw [if_pos hdoc]
      · rw [if_neg hdoc]
        exact storeUpdateField_read_lt _ _ _ n0 p hp hqbound
    have hst2len : n0 ≤ st2.length := by
      rw [hst2def]
      by_cases hdoc : ov.documentationURL = ""
      · rw [if_pos hdoc]
        exact hlenal
      · rw [if_neg hdoc, storeUpdateField_length]
        exact hlenal
    set st3 :=
      if ov.openAPIFiles = [] then st2
      else storeUpdateField st2 (alistLookup m1 ov.name)
        (fun b => { b with openAPIFiles := ov.openAPIFiles }) with hst3def
    have hst3read : ∀ p, p < n0 → st3.read p = st2.read p := by
      intro p hp
      rw [hst3def]
      by_cases hfiles : ov.openAPIFiles = []
      · rw [if_pos hfiles]
      · rw [if_neg hfiles]
        exact storeUpdateField_read_lt _ _ _ n0 p hp hqbound
    have hst3len : n0 ≤ st3.length := by
      rw [hst3def]
      by_cases hfiles : ov.openAPIFiles = []
      · rw [if_pos hfiles]
        exact hst2len
      · rw [if_neg hfiles, storeUpdateField_length]
        exact hst2len
    obtain ⟨ih1, ih2, ih3⟩ := ih st3 m1 hst3len hm1
    refine ⟨ih1, ih2, fun p hp => ?_⟩
    rw [ih3 p hp, hst3read p hp, hst2read p hp, hreadal p hp]

/-- **C10.** Computing the resolved view never mutates the three operation
layers: for every store and layer pointer lists, after `resolve` (pointer
level) every layer pointer still dereferences to the very same operation
record — same name, documentation URL and openapi-files list — because the
layer entries are cloned into fresh allocations before overrides are
applied to the merged map, so all writes target fresh pointers. -/
theorem resolveStore_preserves_layers (st : Store)
    (openapi manual override : List Nat) (p : Nat)
    (hp : p ∈ openapi ++ manual ++ override)
    (hvalid : ∀ q ∈ openapi ++ manual ++ override, q < st.length) :
    (resolveStore st openapi manual override).1.read p = st.read p := by
  have hplen : p < st.length := hvalid p hp
  unfold resolveStore
  obtain ⟨h1len, h1map, h1read⟩ :=
    resolveSeedStore_frame openapi st [] st.length le_rfl (by simp)
  obtain ⟨h2len, h2map, h2read⟩ :=
    resolveSeedStore_frame manual (resolveSeedStore st [] openapi).1
      (resolveSeedStore st [] openapi).2 st.length h1len h1map
  obtain ⟨h3len, h3map, h3read⟩ :=
    resolveOverrideStore_frame override
      (resolveSeedStore (resolveSeedStore st [] openapi).1 (resolveSeedStore st [] openapi).2 manual).1
      (resolveSeedStore (resolveSeedStore st [] openapi).1 (resolveSeedStore st [] openapi).2 manual).2
      st.length h2len h2map
  rw [h3read p hplen, h2read p hplen, h1read p hplen]

/-- Witness for C10 at a concrete store: three one-entry layers over a
store of three records. -/
theorem resolveStore_preserves_layers_witness :
    (resolveStore
      [ { name := "GET /a", documentationURL := "d0", openAPIFiles := ["f0"] },
        { name := "GET /a", documentationURL := "d1", openAPIFiles := [] },
        { name := "GET /a", documentationURL := "", openAPIFiles := ["f2"] } ]
      [0] [1] [2]).1.read 1 =
    some { name := "GET /a", documentationURL := "d1", openAPIFiles := [] } := by
  have h := resolveStore_preserves_layers
    [ { name := "GET /a", documentationURL := "d0", openAPIFiles := ["f0"] },
      { name := "GET /a", documentationURL := "d1", openAPIFiles := [] },
      { name := "GET /a", documentationURL := "", openAPIFiles := ["f2"] } ]
    [0] [1] [2] 1 (by decide) (by decide)
  rw [h]
  rfl

/-! ### Operation sorting (`sortOperations`) and canonicalization

`sortOperations` sorts by URL template (lexicographically) with the verb as
tie-break, both taken from `parseOpName`.  The Go `sort.Slice` comparator is
the strict part of `opLe`; the embedding sorts with the reflexive closure,
which produces a list sorted in the comparator's order, as `sort.Slice`
guarantees. -/

/-- Go string comparison `<` on character lists: lexicographic by code
point (for valid UTF-8 this agrees with Go's byte-wise comparison). -/
def charListLtB : List Char → List Char → Bool
  | [], [] => false
  | [], _ :: _ => true
  | _ :: _, [] => false
  | a :: as, b :: bs =>
    if a < b then true
    else if b < a then false
    else charListLtB as bs

/-- Go string comparison `a < b`. -/
def strLtB (a b : String) : Bool := charListLtB a.data b.data

theorem charListLtB_irrefl (l : List Char) : charListLtB l l = false := by
  induction l with
  | nil => rfl
  | cons a as ih =>
    unfold charListLtB
    rw [if_neg (lt_irrefl a), if_neg (lt_irrefl a)]
    exact ih

theorem charListLtB_asymm : ∀ l₁ l₂, charListLtB l₁ l₂ = true →
    charListLtB l₂ l₁ = false := by
  intro l₁
  induction l₁ with
  | nil =>
    intro l₂ h
    cases l₂ with
    | nil => exact absurd h (by simp [charListLtB])
    | cons b bs => rfl
  | cons a as ih =>
    intro l₂ h
    cases l₂ with
    | nil => exact absurd h (by simp [charListLtB])
    | cons b bs =>
      unfold charListLtB at h ⊢
      by_cases hab : a < b
      · rw [if_neg (lt_asymm hab), if_pos hab]
      · rw [if_neg hab] at h
        by_cases hba : b < a
        · rw [if_pos hba] at h
          exact absurd h (by simp)
        · rw [if_neg hba] at h
          rw [if_neg hba, if_neg hab]
          exact ih bs h

theorem charListLtB_trans : ∀ l₁ l₂ l₃, charListLtB l₁ l₂ = true →
    charListLtB l₂ l₃ = true → charListLtB l₁ l₃ = true := by
  intro l₁
  induction l₁ with
  | nil =>
    intro l₂ l₃ h12 h23
    cases l₂ with
    | nil => exact absurd h12 (by simp [charListLtB])
    | cons b bs =>
      cases l₃ with
      | nil => exact absurd h23 (by simp [charListLtB])
      | cons c cs => rfl
  | cons a as ih =>
    intro l₂ l₃ h12 h23
    cases l₂ with
    | nil => exact absurd h12 (by simp [charListLtB])
    | cons b bs =>
      cases l₃ with
      | nil => exact absurd h23 (by simp [charListLtB])
      | cons c cs =>
        unfold charListLtB at h12 h23 ⊢
        by_cases hab : a < b <;> by_cases hbc : b < c
        · rw [if_pos (lt_trans hab hbc)]
        · rw [if_neg hbc] at h23
          by_cases hcb : c < b
          · rw [if_pos hcb] at h23
            exact absurd h23 (by simp)
          · have hbceq : b = c := le_antisymm (not_lt.mp hcb) (not_lt.mp hbc)
            rw [if_pos (lt_of_lt_of_le hab (le_of_eq hbceq))]
        · rw [if_neg hab] at h12
          by_cases hba : b < a
          · rw [if_pos hba] at h12
            exact absurd h12 (by simp)
          · have habeq : a = b := le_antisymm (not_lt.mp hba) (not_lt.mp hab)
            rw [if_pos (lt_of_le_of_lt (le_of_eq habeq) hbc)]
        · rw [if_neg hab] at h12
          by_cases hba : b < a
          · rw [if_pos hba] at h12
            exact absurd h12 (by simp)
          · rw [if_neg hba] at h12
            rw [if_neg hbc] at h23
            by_cases hcb : c < b
            · rw [if_pos hcb] at h23
              exact absurd h23 (by simp)
            · rw [if_neg hcb] at h23
              have habeq : a = b := le_antisymm (not_lt.mp hba) (not_lt.mp hab)
              have hbceq : b = c := le_antisymm (not_lt.mp hcb) (not_lt.mp hbc)
              have hac : ¬ a < c := by
                rw [habeq, hbceq]
                exact lt_irrefl c
              have hca : ¬ c < a := by
                rw [habeq, hbceq]
                exact lt_irrefl c
              rw [if_neg hac, if_neg hca]
              exact ih bs cs h12 h23

theorem charListLtB_trichotomy : ∀ l₁ l₂, charListLtB l₁ l₂ = true ∨ l₁ = l₂ ∨
    charListLtB l₂ l₁ = true := by
  intro l₁
  induction l₁ with
  | nil =>
    intro l₂
    cases l₂ with
    | nil => exact Or.inr (Or.inl rfl)
    | cons b bs => exact Or.inl rfl
  | cons a as ih =>
    intro l₂
    cases l₂ with
    | nil => exact Or.inr (Or.inr rfl)
    | cons b bs =>
      by_cases hab : a < b
      · exact Or.inl (by unfold charListLtB; rw [if_pos hab])
      · by_cases hba : b < a
        · exact Or.inr (Or.inr (by unfold charListLtB; rw [if_pos hba]))
        · have heq : a = b := le_antisymm (not_lt.mp hba) (not_lt.mp hab)
          rcases ih bs with h | h | h
          · exact Or.inl (by unfold charListLtB; rw [if_neg hab, if_neg hba]; exact h)
          · exact Or.inr (Or.inl (by rw [heq, h]))
          · exact Or.inr (Or.inr (by unfold charListLtB; rw [if_neg hba, if_neg hab]; exact h))

theorem strLtB_asymm {a b : String} (h : strLtB a b = true) : strLtB b a = false :=
  charListLtB_asymm _ _ h

theorem strLtB_trans {a b c : String} (h1 : strLtB a b = true)
    (h2 : strLtB b c = true) : strLtB a c = true :=
  charListLtB_trans _ _ _ h1 h2

theorem strLtB_trichotomy (a b : String) :
    strLtB a b = true ∨ a = b ∨ strLtB b a = true := by
  rcases charListLtB_trichotomy a.data b.data with h | h | h
  · exact Or.inl h
  · exact Or.inr (Or.inl (congrArg String.mk h))
  · exact Or.inr (Or.inr h)

theorem strLtB_irrefl (a : String) : strLtB a a = false :=
  charListLtB_irrefl _

theorem strLtB_eq_of_not_lt {a b : String} (h1 : strLtB a b = false)
    (h2 : strLtB b a = false) : a = b := by
  rcases strLtB_trichotomy a b with h | h | h
  · rw [h] at h1
    cases h1
  · exact h
  · rw [h] at h2
    cases h2

/-- If `b ≮ a` and `c ≮ b` then `c ≮ a` (Go string order). -/
theorem strLtB_neg_trans {a b c : String} (h1 : strLtB b a = false)
    (h2 : strLtB c b = false) : strLtB c a = false := by
  cases hca : strLtB c a with
  | false => rfl
  | true =>
    rcases strLtB_trichotomy c b with h | h | h
    · rw [h] at h2
      cases h2
    · rw [h] at hca
      rw [hca] at h1
      cases h1
    · have := strLtB_trans h hca
      rw [this] at h1
      cases h1

/-- The `sort.Slice` comparator of `sortOperations` from the source:
compare URL templates when they differ, verbs otherwise. -/
def opLessB (a b : Operation) : Bool :=
  if (parseOpName a.name).2 ≠ (parseOpName b.name).2
  then strLtB (parseOpName a.name).2 (parseOpName b.name).2
  else strLtB (parseOpName a.name).1 (parseOpName b.name).1

/-- The order `sort.Slice` establishes: `a` may precede `b` iff the
comparator does not demand `b` before `a`. -/
def opLe (a b : Operation) : Prop := opLessB b a = false

instance : DecidableRel opLe := fun a b => by
  unfold opLe
  infer_instance

theorem opLessB_asymm {a b : Operation} (h : opLessB a b = true) :
    opLessB b a = false := by
  unfold opLessB at h ⊢
  by_cases hurl : (parseOpName a.name).2 = (parseOpName b.name).2
  · rw [if_neg (by simp [hurl])] at h
    rw [if_neg (by simp [hurl])]
    exact strLtB_asymm h
  · rw [if_pos hurl] at h
    rw [if_pos (fun hEq => hurl hEq.symm)]
    exact strLtB_asymm h

instance : IsTotal Operation opLe := by
  constructor
  intro a b
  unfold opLe
  cases h : opLessB a b with
  | false => exact Or.inr rfl
  | true => exact Or.inl (opLessB_asymm h)

instance : IsTrans Operation opLe := by
  constructor
  intro a b c h1 h2
  unfold opLe at h1 h2 ⊢
  unfold opLessB at h1 h2 ⊢
  by_cases e1 : (parseOpName b.name).2 = (parseOpName a.name).2
  · rw [if_neg (by simp [e1])] at h1
    by_cases e2 : (parseOpName c.name).2 = (parseOpName b.name).2
    · rw [if_neg (by simp [e2])] at h2
      rw [if_neg (by simp [e2.trans e1])]
      exact strLtB_neg_trans h1 h2
    · rw [if_pos e2] at h2
      have e3 : (parseOpName c.name).2 ≠ (parseOpName a.name).2 := fun hEq =>
        e2 (hEq.trans e1.symm)
      rw [if_pos e3]
      rw [e1] at h2
      exact h2
  · rw [if_pos e1] at h1
    by_cases e2 : (parseOpName c.name).2 = (parseOpName b.name).2
    · rw [if_neg (by simp [e2])] at h2
      have e3 : (parseOpName c.name).2 ≠ (parseOpName a.name).2 := fun hEq =>
        e1 (e2.symm.trans hEq)
      rw [if_pos e3, e2]
      exact h1
    · rw [if_pos e2] at h2
      have hab : strLtB (parseOpName a.name).2 (parseOpName b.name).2 = true := by
        rcases strLtB_trichotomy (parseOpName b.name).2 (parseOpName a.name).2 with h | h | h
        · rw [h] at h1
          cases h1
        · exact absurd h e1
        · exact h
      have hbc : strLtB (parseOpName b.name).2 (parseOpName c.name).2 = true := by
        rcases strLtB_trichotomy (parseOpName c.name).2 (parseOpName b.name).2 with h | h | h
        · rw [h] at h2
          cases h2
        · exact absurd h e2
        · exact h
      have hac := strLtB_trans hab hbc
      have e3 : (parseOpName c.name).2 ≠ (parseOpName a.name).2 := by
        intro hEq
        rw [hEq] at hac
        rw [strLtB_irrefl] at hac
        cases hac
      rw [if_pos e3]
      exact strLtB_asymm hac

/-- `sortOperations` from the source: sort by URL template, verb as
tie-break. -/
def sortOperations (ops : List Operation) : List Operation :=
  List.insertionSort opLe ops

/-- `Metadata.getOperationsWithNormalizedName`: every resolved entry whose
key has the same normalized name, sorted. -/
def Metadata.getOperationsWithNormalizedName (m : Metadata) (name : String) : List Operation :=
  sortOperations
    (((m.resolveOps).filter (fun kv => normalizedOpName kv.1 = normalizedOpName name)).map Prod.snd)

/-- Go `%q` for the plain strings appearing in this development (no escape
sequences). -/
def goQuote (s : String) : String := "\"" ++ s ++ "\""

/-- The zero-match error of `CanonizeMethodOperations`. -/
def errCannotCanonize (methodName opName : String) : String :=
  "method " ++ goQuote methodName ++
    " has an operation that can not be canonized to any defined name: " ++ opName

/-- The candidate list accumulated in the multiple-match error. -/
def candidateList (ops : List Operation) : String :=
  ops.foldl (fun acc op => acc ++ "\n    " ++ op.name) ""

/-- The multiple-match error of `CanonizeMethodOperations`. -/
def errAmbiguous (methodName opName : String) (ops : List Operation) : String :=
  "method " ++ goQuote methodName ++
    " has an operation that can be canonized to multiple defined names:\n  operation: " ++
    opName ++ "\n  matches: " ++ candidateList ops

/-- The loop body of `CanonizeMethodOperations` for one mapping entry:
verbatim hits are left unchanged, a unique normalized match rewrites the
entry, zero or multiple matches fail. -/
def canonizeOpName (m : Metadata) (methodName opName : String) : Except String String :=
  if (m.getOperation opName).isSome then Except.ok opName
  else
    match m.getOperationsWithNormalizedName opName with
    | [] => Except.error (errCannotCanonize methodName opName)
    | [op] => Except.ok op.name
    | ops => Except.error (errAmbiguous methodName opName ops)

/-- The inner loop of `CanonizeMethodOperations` over one method's
operation names. -/
def canonizeOpNames (m : Metadata) (methodName : String) :
    List String → Except String (List String)
  | [] => Except.ok []
  | n :: rest =>
    match canonizeOpName m methodName n with
    | Except.error e => Except.error e
    | Except.ok n' =>
      match canonizeOpNames m methodName rest with
      | Except.error e => Except.error e
      | Except.ok rest' => Except.ok (n' :: rest')

/-- The outer loop of `CanonizeMethodOperations` over the methods. -/
def canonizeMethods (m : Metadata) : List Method → Except String (List Method)
  | [] => Except.ok []
  | method :: rest =>
    match canonizeOpNames m method.name method.opNames with
    | Except.error e => Except.error e
    | Except.ok names =>
      match canonizeMethods m rest with
      | Except.error e => Except.error e
      | Except.ok rest' => Except.ok ({ method with opNames := names } :: rest')

/-- `Metadata.CanonizeMethodOperations`: canonize every mapping entry,
stopping at the first error. -/
def Metadata.CanonizeMethodOperations (m : Metadata) : Except String Metadata :=
  match canonizeMethods m m.methods with
  | Except.ok ms => Except.ok { m with methods := ms }
  | Except.error e => Except.error e

theorem candidateList_foldl_acc (ops : List Operation) (acc : String) :
    ops.foldl (fun a op => a ++ "\n    " ++ op.name) acc =
      acc ++ ops.foldl (fun a op => a ++ "\n    " ++ op.name) "" := by
  induction ops generalizing acc with
  | nil => simp
  | cons op rest ih =>
    rw [List.foldl_cons, List.foldl_cons, ih, ih ("" ++ "\n    " ++ op.name)]
    simp [String.append_assoc]

theorem mem_candidateList (ops : List Operation) (op : Operation) (hmem : op ∈ ops) :
    ∃ pre post, candidateList ops = pre ++ op.name ++ post := by
  induction ops with
  | nil => cases hmem
  | cons o rest ih =>
    rcases List.mem_cons.mp hmem with rfl | h2
    · refine ⟨"" ++ "\n    ", rest.foldl (fun a x => a ++ "\n    " ++ x.name) "", ?_⟩
      unfold candidateList
      rw [List.foldl_cons, candidateList_foldl_acc]
    · obtain ⟨pre, post, hpp⟩ := ih h2
      refine ⟨"" ++ "\n    " ++ o.name ++ pre, post, ?_⟩
      unfold candidateList at hpp ⊢
      rw [List.foldl_cons, candidateList_foldl_acc, hpp]
      all_goals simp [String.append_assoc]

/-- **C2.** For a document whose mapping consists of one method with one
operation name: an entry present verbatim in the resolved view is left
unchanged; otherwise, with exactly one resolved entry sharing the
normalized name the entry is rewritten to that match's exact name; with
zero matches canonicalization fails with an error naming the unmapped
name; with several matches it fails with an error listing every
candidate's exact name. -/
theorem metadata_eta (m : Metadata) (ms : List Method) (h : m.methods = ms) :
    { m with methods := ms } = m := by
  cases m
  cases h
  rfl

theorem canonize_method_operations_cases (m : Metadata) (mname opName : String)
    (hm : m.methods = [{ name := mname, opNames := [opName] }]) :
    ((m.getOperation opName).isSome →
      m.CanonizeMethodOperations = Except.ok m) ∧
    ((m.getOperation opName).isSome = false →
      m.getOperationsWithNormalizedName opName = [] →
      m.CanonizeMethodOperations = Except.error (errCannotCanonize mname opName)) ∧
    (∀ op, (m.getOperation opName).isSome = false →
      m.getOperationsWithNormalizedName opName = [op] →
      m.CanonizeMethodOperations =
        Except.ok { m with methods := [{ name := mname, opNames := [op.name] }] }) ∧
    (∀ ops, (m.getOperation opName).isSome = false →
      m.getOperationsWithNormalizedName opName = ops → 2 ≤ ops.length →
      m.CanonizeMethodOperations = Except.error (errAmbiguous mname opName ops) ∧
      ∀ op ∈ ops, ∃ pre post,
        errAmbiguous mname opName ops = pre ++ op.name ++ post) := by
  refine ⟨?_, ?_, ?_, ?_⟩
  · intro hsome
    unfold Metadata.CanonizeMethodOperations
    rw [hm]
    unfold canonizeMethods canonizeOpNames canonizeOpName
    rw [if_pos hsome]
    exact congrArg Except.ok (metadata_eta m _ hm)
  · intro hnone hempty
    unfold Metadata.CanonizeMethodOperations
    rw [hm]
    unfold canonizeMethods canonizeOpNames canonizeOpName
    rw [if_neg (by simp [hnone]), hempty]
  · intro op hnone hone
    unfold Metadata.CanonizeMethodOperations
    rw [hm]
    unfold canonizeMethods canonizeOpNames canonizeOpName
    rw [if_neg (by simp [hnone]), hone]
    rfl
  · intro ops hnone hops hlen
    constructor
    · unfold Metadata.CanonizeMethodOperations
      rw [hm]
      unfold canonizeMethods canonizeOpNames canonizeOpName
      rw [if_neg (by simp [hnone]), hops]
      match ops, hlen with
      | op1 :: op2 :: rest, _ => rfl
    · intro op hmem
      obtain ⟨pre, post, hpp⟩ := mem_candidateList ops op hmem
      exact ⟨"method " ++ goQuote mname ++
        " has an operation that can be canonized to multiple defined names:\n  operation: " ++
        opName ++ "\n  matches: " ++ pre, post, by
          unfold errAmbiguous
          rw [hpp]
          simp [String.append_assoc]⟩

/-- Witness document for C2: one method mapped to a non-canonical name
with a unique normalized match in the manual layer. -/
def c2Meta : Metadata :=
  { methods := [{ name := "SvcService.Get", opNames := ["GET /a/" ++ "\x7bid\x7d"] }]
    manualOps := [{ name := "GET /a/" ++ "\x7ba_id\x7d", documentationURL := "", openAPIFiles := [] }]
    overrideOps := []
    gitCommit := ""
    openapiOps := [] }

theorem canonize_method_operations_cases_witness :
    c2Meta.CanonizeMethodOperations = Except.ok
      { c2Meta with methods :=
          [{ name := "SvcService.Get", opNames := ["GET /a/" ++ "\x7ba_id\x7d"] }] } := by
  exact (canonize_method_operations_cases c2Meta "SvcService.Get"
      ("GET /a/" ++ "\x7bid\x7d") (by rfl)).2.2.1
    { name := "GET /a/" ++ "\x7ba_id\x7d", documentationURL := "", openAPIFiles := [] }
    (by rfl) (by rfl)

/-! ### Validation of the operation layers (`validateOperations`)

`validateOperations` appends issues to the accumulator it is given: the
openapi loop flags duplicated names, the manual loop flags duplicated names
and names present in both layers, the override loop flags duplicated names
and names absent from both other layers.  Go's seen-name maps are embedded
as lists of seen names. -/

/-- "Name duplicated in openapi_operations: " issue. -/
def msgDupOpenapi (n : String) : String :=
  "Name duplicated in openapi_operations: " ++ n

/-- "Name duplicated in operations: " issue. -/
def msgDupManual (n : String) : String :=
  "Name duplicated in operations: " ++ n

/-- "Name exists in both operations and openapi_operations: " issue. -/
def msgBoth (n : String) : String :=
  "Name exists in both operations and openapi_operations: " ++ n

/-- "Name duplicated in override_operations: " issue. -/
def msgDupOverride (n : String) : String :=
  "Name duplicated in override_operations: " ++ n

/-- The issue for an override entry whose name exists in neither the
manual nor the openapi layer. -/
def msgOverrideMissing (n : String) : String :=
  "Name in override_operations does not exist in operations or openapi_operations: " ++ n

/-- The openapi-layer loop of `validateOperations`; returns the grown
issue list and the seen openapi names. -/
def validateOpenapiOpsLoop :
    List Operation → List String → List String → List String × List String
  | [], result, seen => (result, seen)
  | op :: rest, result, seen =>
    let result1 := if op.name ∈ seen then result ++ [msgDupOpenapi op.name] else result
    validateOpenapiOpsLoop rest result1 (op.name :: seen)

/-- The manual-layer loop of `validateOperations`; returns the grown issue
list and the seen manual names. -/
def validateManualOpsLoop (openapiNames : List String) :
    List Operation → List String → List String → List String × List String
  | [], result, names => (result, names)
  | op :: rest, result, names =>
    let result1 := if op.name ∈ names then result ++ [msgDupManual op.name] else result
    let result2 :=
      if op.name ∈ openapiNames then result1 ++ [msgBoth op.name] else result1
    validateManualOpsLoop openapiNames rest result2 (op.name :: names)

/-- The override-layer loop of `validateOperations`. -/
def validateOverrideOpsLoop (names openapiNames : List String) :
    List Operation → List String → List String → List String
  | [], result, _ => result
  | op :: rest, result, overrideNames =>
    let result1 :=
      if op.name ∈ overrideNames then result ++ [msgDupOverride op.name] else result
    let result2 :=
      if op.name ∉ names ∧ op.name ∉ openapiNames
      then result1 ++ [msgOverrideMissing op.name] else result1
    validateOverrideOpsLoop names openapiNames rest result2 (op.name :: overrideNames)

/-- `validateOperations` from the source: the three layer loops in
sequence, appending to the accumulated issue list. -/
def validateOperations (result : List String) (meta : Metadata) : List String :=
  validateOverrideOpsLoop
    (validateManualOpsLoop (validateOpenapiOpsLoop meta.openapiOps result []).2
      meta.manualOps (validateOpenapiOpsLoop meta.openapiOps result []).1 []).2
    (validateOpenapiOpsLoop meta.openapiOps result []).2
    meta.overrideOps
    (validateManualOpsLoop (validateOpenapiOpsLoop meta.openapiOps result []).2
      meta.manualOps (validateOpenapiOpsLoop meta.openapiOps result []).1 []).1
    []

theorem validateOpenapiOpsLoop_acc2 (ops : List Operation) :
    ∀ (acc1 acc2 seen : List String),
    (validateOpenapiOpsLoop ops (acc1 ++ acc2) seen).1 =
      acc1 ++ (validateOpenapiOpsLoop ops acc2 seen).1 ∧
    (validateOpenapiOpsLoop ops (acc1 ++ acc2) seen).2 =
      (validateOpenapiOpsLoop ops acc2 seen).2 := by
  induction ops with
  | nil =>
    intro acc1 acc2 seen
    simp [validateOpenapiOpsLoop]
  | cons op rest ih =>
    intro acc1 acc2 seen
    simp only [validateOpenapiOpsLoop]
    split_ifs <;>
      ((try simp only [List.append_assoc])
       exact ih acc1 _ (op.name :: seen))

theorem validateOpenapiOpsLoop_acc (ops : List Operation)
    (acc seen : List String) :
    (validateOpenapiOpsLoop ops acc seen).1 =
      acc ++ (validateOpenapiOpsLoop ops [] seen).1 ∧
    (validateOpenapiOpsLoop ops acc seen).2 =
      (validateOpenapiOpsLoop ops [] seen).2 := by
  have h := validateOpenapiOpsLoop_acc2 ops acc [] seen
  simpa using h

theorem validateManualOpsLoop_acc2 (openapiNames : List String)
    (ops : List Operation) :
    ∀ (acc1 acc2 names : List String),
    (validateManualOpsLoop openapiNames ops (acc1 ++ acc2) names).1 =
      acc1 ++ (validateManualOpsLoop openapiNames ops acc2 names).1 ∧
    (validateManualOpsLoop openapiNames ops (acc1 ++ acc2) names).2 =
      (validateManualOpsLoop openapiNames ops acc2 names).2 := by
  induction ops with
  | nil =>
    intro acc1 acc2 names
    simp [validateManualOpsLoop]
  | cons op rest ih =>
    intro acc1 acc2 names
    simp only [validateManualOpsLoop]
    split_ifs <;>
      ((try simp only [List.append_assoc])
       exact ih acc1 _ (op.name :: names))

theorem validateManualOpsLoop_acc (openapiNames : List String)
    (ops : List Operation) (acc names : List String) :
    (validateManualOpsLoop openapiNames ops acc names).1 =
      acc ++ (validateManualOpsLoop openapiNames ops [] names).1 ∧
    (validateManualOpsLoop openapiNames ops acc names).2 =
      (validateManualOpsLoop openapiNames ops [] names).2 := by
  have h := validateManualOpsLoop_acc2 openapiNames ops acc [] names
  simpa using h

theorem validateOverrideOpsLoop_acc2 (names openapiNames : List String)
    (ops : List Operation) :
    ∀ (acc1 acc2 overrideNames : List String),
    validateOverrideOpsLoop names openapiNames ops (acc1 ++ acc2) overrideNames =
      acc1 ++ validateOverrideOpsLoop names openapiNames ops acc2 overrideNames := by
  induction ops with
  | nil =>
    intro acc1 acc2 overrideNames
    simp [validateOverrideOpsLoop]
  | cons op rest ih =>
    intro acc1 acc2 overrideNames
    simp only [validateOverrideOpsLoop]
    split_ifs <;>
      ((try simp only [List.append_assoc])
       exact ih acc1 _ (op.name :: overrideNames))

theorem validateOverrideOpsLoop_acc (names openapiNames : List String)
    (ops : List Operation) (acc overrideNames : List String) :
    validateOverrideOpsLoop names openapiNames ops acc overrideNames =
      acc ++ validateOverrideOpsLoop names openapiNames ops [] overrideNames := by
  have h := validateOverrideOpsLoop_acc2 names openapiNames ops acc [] overrideNames
  simpa using h

/-- The seen-name list computed by the openapi loop contains exactly the
initial names and the layer's names. -/
theorem validateOpenapiOpsLoop_seen (ops : List Operation)
    (acc seen : List String) (x : String) :
    (x ∈ (validateOpenapiOpsLoop ops acc seen).2 ↔
      x ∈ seen ∨ x ∈ ops.map Operation.name) := by
  induction ops generalizing acc seen with
  | nil => simp [validateOpenapiOpsLoop]
  | cons op rest ih =>
    simp only [validateOpenapiOpsLoop]
    rw [ih]
    simp only [List.map_cons, List.mem_cons]
    tauto

/-- The seen-name list computed by the manual loop contains exactly the
initial names and the layer's names. -/
theorem validateManualOpsLoop_seen (openapiNames : List String)
    (ops : List Operation) (acc names : List String) (x : String) :
    (x ∈ (validateManualOpsLoop openapiNames ops acc names).2 ↔
      x ∈ names ∨ x ∈ ops.map Operation.name) := by
  induction ops generalizing acc names with
  | nil => simp [validateManualOpsLoop]
  | cons op rest ih =>
    simp only [validateManualOpsLoop]
    rw [ih]
    simp only [List.map_cons, List.mem_cons]
    tauto

/-- **C5.** Validation performs a full scan with no early return: the
issues of `validateOperations` are appended to whatever accumulator is
passed in (first conjunct), and a document whose override layer consists of
exactly one entry naming an operation absent from both the manual and the
openapi layer produces exactly the single issue "does not exist in
operations or openapi_operations" for that entry, appended after whatever
issues the other layers produce (second conjunct). -/
theorem validateOperations_full_scan :
    (∀ (acc : List String) (meta : Metadata),
      validateOperations acc meta = acc ++ validateOperations [] meta) ∧
    (∀ (acc : List String) (meta : Metadata) (o : Operation),
      meta.overrideOps = [o] →
      o.name ∉ meta.manualOps.map Operation.name →
      o.name ∉ meta.openapiOps.map Operation.name →
      validateOperations acc meta =
        validateOperations acc { meta with overrideOps := [] } ++
          [msgOverrideMissing o.name]) := by
  constructor
  · intro acc meta
    unfold validateOperations
    obtain ⟨h11, h12⟩ := validateOpenapiOpsLoop_acc meta.openapiOps acc []
    rw [h11, h12]
    obtain ⟨h21, h22⟩ := validateManualOpsLoop_acc
      (validateOpenapiOpsLoop meta.openapiOps [] []).2 meta.manualOps
      (acc ++ (validateOpenapiOpsLoop meta.openapiOps [] []).1) []
    rw [h21, h22]
    obtain ⟨h31, h32⟩ := validateManualOpsLoop_acc
      (validateOpenapiOpsLoop meta.openapiOps [] []).2 meta.manualOps
      (validateOpenapiOpsLoop meta.openapiOps [] []).1 []
    rw [h31, h32]
    rw [validateOverrideOpsLoop_acc, validateOverrideOpsLoop_acc
      ((validateManualOpsLoop (validateOpenapiOpsLoop meta.openapiOps [] []).2
          meta.manualOps [] []).2)
      (validateOpenapiOpsLoop meta.openapiOps [] []).2 meta.overrideOps
      ((validateOpenapiOpsLoop meta.openapiOps [] []).1 ++
        (validateManualOpsLoop (validateOpenapiOpsLoop meta.openapiOps [] []).2
          meta.manualOps [] []).1) []]
    simp
  · intro acc meta o hov hman hopen
    unfold validateOperations
    rw [hov]
    simp only [validateOverrideOpsLoop]
    have hnotin1 : o.name ∉
        (validateManualOpsLoop (validateOpenapiOpsLoop meta.openapiOps acc []).2
          meta.manualOps (validateOpenapiOpsLoop meta.openapiOps acc []).1 []).2 := by
      rw [validateManualOpsLoop_seen]
      push_neg
      exact ⟨by simp, hman⟩
    have hnotin2 : o.name ∉ (validateOpenapiOpsLoop meta.openapiOps acc []).2 := by
      rw [validateOpenapiOpsLoop_seen]
      push_neg
      exact ⟨by simp, hopen⟩
    rw [if_neg (List.not_mem_nil o.name)]
    rw [if_pos ⟨hnotin1, hnotin2⟩]

/-- Witness document for C5: one manual operation, one openapi operation
and one override entry naming an operation defined in neither layer. -/
def c5Meta : Metadata :=
  { methods := []
    manualOps := [{ name := "GET /m", documentationURL := "", openAPIFiles := [] }]
    overrideOps := [{ name := "GET /zz", documentationURL := "d", openAPIFiles := [] }]
    gitCommit := ""
    openapiOps := [{ name := "GET /o", documentationURL := "", openAPIFiles := [] }] }

theorem validateOperations_full_scan_witness :
    validateOperations ["prior issue"] c5Meta =
      validateOperations ["prior issue"] { c5Meta with overrideOps := [] } ++
        [msgOverrideMissing "GET /zz"] :=
  validateOperations_full_scan.2 ["prior issue"] c5Meta
    { name := "GET /zz", documentationURL := "d", openAPIFiles := [] }
    (by rfl) (by decide) (by decide)

/-! ### Save-time canonical sorting (`Metadata.SaveFile`)

`SaveFile` re-sorts the three operation layers with `sortOperations`, sorts
the methods by name and every method's operation-name list, and then hands
the document to the serializer.  `savePrepared` is the document as passed
to the encoder; the persisted output is a function of it. -/

/-- The sort key of `sortOperations`: URL template then verb. -/
def opKey (op : Operation) : String × String :=
  ((parseOpName op.name).2, (parseOpName op.name).1)

/-- The method order of `SaveFile` (`sort.Slice` by name): `a` may precede
`b` iff `b.name` is not strictly below `a.name`. -/
def methodLe (a b : Method) : Prop := strLtB b.name a.name = false

instance : DecidableRel methodLe := fun a b => by
  unfold methodLe
  infer_instance

instance : IsTotal Method methodLe := by
  constructor
  intro a b
  unfold methodLe
  cases h : strLtB a.name b.name with
  | false => exact Or.inr rfl
  | true => exact Or.inl (strLtB_asymm h)

instance : IsTrans Method methodLe :=
  ⟨fun _ _ _ hab hbc => strLtB_neg_trans hab hbc⟩

/-- The ascending string order of `sort.Strings`. -/
def strle (a b : String) : Prop := strLtB b a = false

instance : DecidableRel strle := fun a b => by
  unfold strle
  infer_instance

instance : IsTotal String strle := by
  constructor
  intro a b
  unfold strle
  cases h : strLtB a b with
  | false => exact Or.inr rfl
  | true => exact Or.inl (strLtB_asymm h)

instance : IsTrans String strle :=
  ⟨fun _ _ _ hab hbc => strLtB_neg_trans hab hbc⟩

/-- `sort.Strings` on a method's operation names. -/
def sortStrings (l : List String) : List String :=
  List.insertionSort strle l

/-- The per-method normalization performed by `SaveFile`: the operation
name list is sorted. -/
def normMethod (mth : Method) : Method :=
  { mth with opNames := sortStrings mth.opNames }

/-- The document as serialized by `SaveFile`: all three layers re-sorted,
methods sorted by name, each method's operation list sorted. -/
def savePrepared (m : Metadata) : Metadata :=
  { m with
    manualOps := sortOperations m.manualOps
    overrideOps := sortOperations m.overrideOps
    openapiOps := sortOperations m.openapiOps
    methods := (List.insertionSort methodLe m.methods).map normMethod }

/-- Two sorted lists that are permutations of each other and whose keys are
pairwise distinct are equal, provided the order is antisymmetric up to the
key. -/
theorem eq_of_perm_of_sorted_keys {α κ : Type} [DecidableEq κ] (key : α → κ)
    (r : α → α → Prop) (hanti : ∀ a b, r a b → r b a → key a = key b) :
    ∀ (l₁ l₂ : List α), l₁.Perm l₂ → l₁.Sorted r → l₂.Sorted r →
      (l₁.map key).Nodup → l₁ = l₂ := by
  intro l₁
  induction l₁ with
  | nil =>
    intro l₂ hperm _ _ _
    exact List.Perm.nil_eq hperm
  | cons a t₁ ih =>
    intro l₂ hperm hs₁ hs₂ hnodup
    cases l₂ with
    | nil => exact absurd hperm.symm (by simp)
    | cons b t₂ =>
      have hab : a = b := by
        by_contra hne
        have ha2 : a ∈ b :: t₂ := hperm.mem_iff.mp (List.mem_cons_self _ _)
        have hb1 : b ∈ a :: t₁ := hperm.symm.mem_iff.mp (List.mem_cons_self _ _)
        have ha2' : a ∈ t₂ := by
          rcases List.mem_cons.mp ha2 with h | h
          · exact absurd h hne
          · exact h
        have hb1' : b ∈ t₁ := by
          rcases List.mem_cons.mp hb1 with h | h
          · exact absurd h.symm hne
          · exact h
        have hrba : r b a := (List.sorted_cons.mp hs₂).1 a ha2'
        have hrab : r a b := (List.sorted_cons.mp hs₁).1 b hb1'
        have hkey : key a = key b := hanti a b hrab hrba
        have hmem : key b ∈ t₁.map key := List.mem_map_of_mem key hb1'
        rw [List.map_cons, List.nodup_cons] at hnodup
        exact hnodup.1 (hkey ▸ hmem)
      subst hab
      have htperm : t₁.Perm t₂ := hperm.cons_inv
      have hteq : t₁ = t₂ := ih t₂ htperm (List.sorted_cons.mp hs₁).2
        (List.sorted_cons.mp hs₂).2
        (by
          rw [List.map_cons, List.nodup_cons] at hnodup
          exact hnodup.2)
      rw [hteq]

/-- Two sorted lists that are permutations of each other are equal when the
order is fully antisymmetric. -/
theorem eq_of_perm_of_sorted_total {α : Type} (r : α → α → Prop)
    (hanti : ∀ a b, r a b → r b a → a = b) :
    ∀ (l₁ l₂ : List α), l₁.Perm l₂ → l₁.Sorted r → l₂.Sorted r → l₁ = l₂ := by
  intro l₁
  induction l₁ with
  | nil =>
    intro l₂ hperm _ _
    exact List.Perm.nil_eq hperm
  | cons a t₁ ih =>
    intro l₂ hperm hs₁ hs₂
    cases l₂ with
    | nil => exact absurd hperm.symm (by simp)
    | cons b t₂ =>
      have hab : a = b := by
        by_contra hne
        have ha2 : a ∈ b :: t₂ := hperm.mem_iff.mp (List.mem_cons_self _ _)
        have hb1 : b ∈ a :: t₁ := hperm.symm.mem_iff.mp (List.mem_cons_self _ _)
        have ha2' : a ∈ t₂ := by
          rcases List.mem_cons.mp ha2 with h | h
          · exact absurd h hne
          · exact h
        have hb1' : b ∈ t₁ := by
          rcases List.mem_cons.mp hb1 with h | h
          · exact absurd h.symm hne
          · exact h
        have hrba : r b a := (List.sorted_cons.mp hs₂).1 a ha2'
        have hrab : r a b := (List.sorted_cons.mp hs₁).1 b hb1'
        exact hne (hanti a b hrab hrba)
      subst hab
      have hteq : t₁ = t₂ := ih t₂ hperm.cons_inv (List.sorted_cons.mp hs₁).2
        (List.sorted_cons.mp hs₂).2
      rw [hteq]

theorem opLe_antisymm_key (a b : Operation) (hab : opLe a b) (hba : opLe b a) :
    opKey a = opKey b := by
  unfold opLe opLessB at hab hba
  unfold opKey
  by_cases e : (parseOpName a.name).2 = (parseOpName b.name).2
  · rw [if_neg (by simp [e])] at hba
    rw [if_neg (by simp [e])] at hab
    rw [e, strLtB_eq_of_not_lt hba hab]
  · rw [if_pos e] at hba
    rw [if_pos (fun hEq => e hEq.symm)] at hab
    exact absurd (strLtB_eq_of_not_lt hba hab) e

theorem sortOperations_eq_of_perm (l₁ l₂ : List Operation)
    (hperm : l₁.Perm l₂) (hnodup : (l₁.map opKey).Nodup) :
    sortOperations l₁ = sortOperations l₂ := by
  refine eq_of_perm_of_sorted_keys opKey opLe opLe_antisymm_key _ _ ?_ ?_ ?_ ?_
  · exact (List.perm_insertionSort opLe l₁).trans
      (hperm.trans (List.perm_insertionSort opLe l₂).symm)
  · exact List.sorted_insertionSort opLe l₁
  · exact List.sorted_insertionSort opLe l₂
  · exact ((List.perm_insertionSort opLe l₁).map opKey).nodup_iff.mpr hnodup

theorem sortStrings_eq_of_perm (l₁ l₂ : List String) (hperm : l₁.Perm l₂) :
    sortStrings l₁ = sortStrings l₂ := by
  refine eq_of_perm_of_sorted_total strle
    (fun a b h1 h2 => strLtB_eq_of_not_lt h2 h1) _ _ ?_ ?_ ?_
  · exact (List.perm_insertionSort strle l₁).trans
      (hperm.trans (List.perm_insertionSort strle l₂).symm)
  · exact List.sorted_insertionSort strle l₁
  · exact List.sorted_insertionSort strle l₂

/-- **C6 (amended).** Saving re-sorts every operation layer (URL template
compared lexicographically, verb as tie-break) and sorts the method list
and every method\u0027s operation-name list, so two in-memory documents that
differ only in the insertion order of layer entries and mapping lists
produce the same prepared (serialized) document — provided no two entries
of one layer share a sort key and no two methods share a name.  Without
that uniqueness the unstable sort preserves the differing insertion orders
of tied entries (see the counterexample). -/
theorem savePrepared_order_independent (m1 m2 : Metadata)
    (hgit : m1.gitCommit = m2.gitCommit)
    (hman : m1.manualOps.Perm m2.manualOps)
    (hovr : m1.overrideOps.Perm m2.overrideOps)
    (hopen : m1.openapiOps.Perm m2.openapiOps)
    (hmeth : (m1.methods.map normMethod).Perm (m2.methods.map normMethod))
    (hk1 : (m1.manualOps.map opKey).Nodup)
    (hk2 : (m1.overrideOps.map opKey).Nodup)
    (hk3 : (m1.openapiOps.map opKey).Nodup)
    (hk4 : (m1.methods.map Method.name).Nodup) :
    savePrepared m1 = savePrepared m2 := by
  unfold savePrepared
  have hname : Method.name ∘ normMethod = Method.name := funext fun mth => rfl
  have hmethods :
      (List.insertionSort methodLe m1.methods).map normMethod =
      (List.insertionSort methodLe m2.methods).map normMethod := by
    refine eq_of_perm_of_sorted_keys Method.name methodLe
      (fun a b hab hba => strLtB_eq_of_not_lt hba hab) _ _ ?_ ?_ ?_ ?_
    · exact ((List.perm_insertionSort methodLe m1.methods).map _).trans
        (hmeth.trans (((List.perm_insertionSort methodLe m2.methods).map _).symm))
    · exact List.Pairwise.map _ (fun a b h => h)
        (List.sorted_insertionSort methodLe m1.methods)
    · exact List.Pairwise.map _ (fun a b h => h)
        (List.sorted_insertionSort methodLe m2.methods)
    · rw [List.map_map, hname]
      exact (((List.perm_insertionSort methodLe m1.methods)).map Method.name).nodup_iff.mpr hk4
  rw [sortOperations_eq_of_perm _ _ hman hk1, sortOperations_eq_of_perm _ _ hovr hk2,
    sortOperations_eq_of_perm _ _ hopen hk3, hmethods, hgit]

/-- Witness documents for C6 (amended): the same two-entry manual layer and
two-method mapping in different insertion orders, with distinct sort keys
and method names. -/
def c6m1 : Metadata :=
  { methods := [{ name := "ASvc.M", opNames := ["GET /b", "GET /a"] },
                { name := "BSvc.N", opNames := ["GET /c"] }]
    manualOps := [{ name := "GET /b", documentationURL := "db", openAPIFiles := [] },
                  { name := "GET /a", documentationURL := "da", openAPIFiles := [] }]
    overrideOps := []
    gitCommit := ""
    openapiOps := [] }

/-- The same document with every list permuted. -/
def c6m2 : Metadata :=
  { methods := [{ name := "BSvc.N", opNames := ["GET /c"] },
                { name := "ASvc.M", opNames := ["GET /a", "GET /b"] }]
    manualOps := [{ name := "GET /a", documentationURL := "da", openAPIFiles := [] },
                  { name := "GET /b", documentationURL := "db", openAPIFiles := [] }]
    overrideOps := []
    gitCommit := ""
    openapiOps := [] }

theorem savePrepared_order_independent_witness :
    savePrepared c6m1 = savePrepared c6m2 :=
  savePrepared_order_independent c6m1 c6m2 rfl
    (List.Perm.swap _ _ []) (List.Perm.refl []) (List.Perm.refl [])
    (by
      show [normMethod { name := "ASvc.M", opNames := ["GET /b", "GET /a"] },
            normMethod { name := "BSvc.N", opNames := ["GET /c"] }].Perm
        [normMethod { name := "BSvc.N", opNames := ["GET /c"] },
         normMethod { name := "ASvc.M", opNames := ["GET /a", "GET /b"] }]
      have h : normMethod { name := "ASvc.M", opNames := ["GET /b", "GET /a"] } =
          normMethod { name := "ASvc.M", opNames := ["GET /a", "GET /b"] } := by decide
      rw [h]
      exact List.Perm.swap _ _ [])
    (by decide) (by decide) (by decide) (by decide)

/-- Counterexample for C6 as originally stated: two documents that differ
only in the insertion order of two manual-layer entries sharing the sort
key "GET /a" (duplicate name, different documentation URLs) serialize
differently, because the sort preserves the differing input orders of
tied entries. -/
theorem savePrepared_order_dependent_counterexample :
    ({ methods := []
       manualOps := [{ name := "GET /a", documentationURL := "d1", openAPIFiles := [] },
                     { name := "GET /a", documentationURL := "d2", openAPIFiles := [] }]
       overrideOps := []
       gitCommit := ""
       openapiOps := [] } : Metadata).manualOps.Perm
      ({ methods := []
         manualOps := [{ name := "GET /a", documentationURL := "d2", openAPIFiles := [] },
                       { name := "GET /a", documentationURL := "d1", openAPIFiles := [] }]
         overrideOps := []
         gitCommit := ""
         openapiOps := [] } : Metadata).manualOps ∧
    savePrepared
      { methods := []
        manualOps := [{ name := "GET /a", documentationURL := "d1", openAPIFiles := [] },
                      { name := "GET /a", documentationURL := "d2", openAPIFiles := [] }]
        overrideOps := []
        gitCommit := ""
        openapiOps := [] } ≠
    savePrepared
      { methods := []
        manualOps := [{ name := "GET /a", documentationURL := "d2", openAPIFiles := [] },
                      { name := "GET /a", documentationURL := "d1", openAPIFiles := [] }]
        overrideOps := []
        gitCommit := ""
        openapiOps := [] } := by
  constructor
  · exact List.Perm.swap _ _ []
  · decide

/-! ### The body analyzer (internal.go)

The analyzer walks a procedure body's statement list and recovers the HTTP
verb, URL templates and helper reference.  The Go AST subset the analyzer
dispatches on is embedded as `GoExpr` / `GoStmt` / `GoElse`; `otherExpr` /
`otherStmt` / `otherElse` stand for the syntax shapes the analyzer's type
switches have no case for (they carry the Go type name for the error
message).  `log.Fatalf` calls and index-out-of-range panics are embedded as
`Except.error` (both abort analysis). -/

/-- The expression shapes distinguished by the analyzer's type switches. -/
inductive GoExpr where
  | basicLit (value : String)
  | ident (name : String)
  | call (fn : GoExpr) (args : List GoExpr)
  | selectorExpr (x : GoExpr) (sel : String)
  | binaryExpr
  | compositeLit
  | funcLit
  | unaryExpr (x : GoExpr)
  | typeAssertExpr
  | starExpr
  | structType
  | arrayType
  | mapType
  | parenExpr (x : GoExpr)
  | otherExpr (t : String)
deriving Repr

mutual
/-- The statement shapes distinguished by `parseBody`. -/
inductive GoStmt where
  | assignStmt (lhs rhs : List GoExpr)
  | declStmt
  | deferStmt
  | exprStmt
  | ifStmt (body : List GoStmt) (els : GoElse)
  | rangeStmt
  | returnStmt (results : List GoExpr)
  | switchStmt
  | otherStmt (t : String)

/-- The else-branch shapes distinguished by `parseIf`. -/
inductive GoElse where
  | noneElse
  | blockElse (body : List GoStmt)
  | ifElse (body : List GoStmt) (els : GoElse)
  | otherElse (t : String)
end

/-- `strings.Trim(v, quote)`: all leading and trailing double quotes
removed. -/
def trimQuotes (s : String) : String :=
  String.mk (((s.data.dropWhile (fun c => c = quoteChar)).reverse.dropWhile
    (fun c => c = quoteChar)).reverse)

/-- `strings.HasPrefix`. -/
def strHasPrefix (s pre : String) : Bool := pre.data.isPrefixOf s.data

/-- `strings.HasSuffix`. -/
def strHasSuffix (s suf : String) : Bool := suf.data.isSuffixOf s.data

/-- `strings.TrimPrefix`. -/
def strTrimPrefix (s pre : String) : String :=
  if strHasPrefix s pre then String.mk (s.data.drop pre.data.length) else s

/-- `strings.ToUpper` (code-point-wise). -/
def strToUpper (s : String) : String := String.mk (s.data.map Char.toUpper)

/-- `strconv.Unquote` restricted to escape-free double-quoted literals: a
string of length at least two delimited by double quotes whose interior has
no quote and no backslash unquotes to its interior; everything else is
rejected.  (Escape sequences do not occur in the URL literals this
repository analyzes; inputs containing them are conservatively rejected.) -/
def goUnquote (s : String) : Option String :=
  match s.data with
  | [] => none
  | c :: rest =>
    if c = quoteChar ∧ rest ≠ [] ∧ rest.getLast? = some quoteChar ∧
        (∀ x ∈ rest.dropLast, x ≠ quoteChar ∧ x ≠ backslashChar)
    then some (String.mk rest.dropLast)
    else none

/-- One recorded assignment: a name on the left, a string on the right
(`lhsrhs` in the source). -/
structure LhsRhs where
  lhs : String
  rhs : String
deriving DecidableEq, Repr

/-- The selector-argument rewrite of `processCallExpr`: `x.Sel`, with
`http.MethodXxx` turned into the upper-case verb. -/
def selectorArgName (x sel : String) : String :=
  let name := x ++ "." ++ sel
  if strHasPrefix name "http.Method"
  then strToUpper (strTrimPrefix name "http.Method")
  else name

/-- The callee switch of `processCallExpr`: returns (receiver, function
name). -/
def processCallFn (fn : GoExpr) : Except String (String × String) :=
  match fn with
  | GoExpr.ident n => Except.ok ("", n)
  | GoExpr.selectorExpr x sel =>
    match x with
    | GoExpr.ident n => Except.ok (n, sel)
    | GoExpr.parenExpr _ => Except.ok ("", sel)
    | GoExpr.selectorExpr _ s2 => Except.ok (s2, sel)
    | GoExpr.call _ _ => Except.ok ("", sel)
    | _ => Except.error "processCallExpr: unhandled X receiver type"
  | _ => Except.error "processCallExpr: unhandled Fun"

mutual
/-- The strings one argument of `processCallExpr` contributes (none for the
skipped shapes, fatal for the unhandled ones). -/
def processCallArgOne (arg : GoExpr) : Except String (List String) :=
  match arg with
  | GoExpr.arrayType => Except.ok []
  | GoExpr.basicLit v => Except.ok [v]
  | GoExpr.call f fargs =>
    match processCallArgs fargs with
    | Except.error e => Except.error e
    | Except.ok as1 =>
      match processCallFn f with
      | Except.error e => Except.error e
      | Except.ok (r, fn) =>
        if r = "fmt" ∧ fn = "Sprintf" ∧ as1 ≠ []
        then Except.ok [as1.headI]
        else Except.ok []
  | GoExpr.compositeLit => Except.ok []
  | GoExpr.ident n => Except.ok [n]
  | GoExpr.mapType => Except.ok []
  | GoExpr.selectorExpr x sel =>
    match x with
    | GoExpr.ident xn => Except.ok [selectorArgName xn sel]
    | _ => Except.ok []
  | GoExpr.starExpr => Except.ok []
  | GoExpr.structType => Except.ok []
  | GoExpr.unaryExpr x =>
    match x with
    | GoExpr.ident n => Except.ok [n]
    | GoExpr.compositeLit => Except.ok []
    | _ => Except.error "processCallExpr: unhandled UnaryExpr.X arg type"
  | _ => Except.error "processCallExpr: unhandled arg type"

/-- The argument loop of `processCallExpr`. -/
def processCallArgs (args : List GoExpr) : Except String (List String) :=
  match args with
  | [] => Except.ok []
  | arg :: rest =>
    match processCallArgOne arg with
    | Except.error e => Except.error e
    | Except.ok contrib =>
      match processCallArgs rest with
      | Except.error e => Except.error e
      | Except.ok as0 => Except.ok (contrib ++ as0)
end

/-- `processCallExpr` from the source: arguments first, then the callee
shape; returns (receiver, function name, argument strings). -/
def processCallExpr (fn : GoExpr) (args : List GoExpr) :
    Except String (String × String × List String) :=
  match processCallArgs args with
  | Except.error e => Except.error e
  | Except.ok argStrs =>
    match processCallFn fn with
    | Except.error e => Except.error e
    | Except.ok (recv, funcName) => Except.ok (recv, funcName, argStrs)

/-- The `helperOverrides` table: `s.search` supplies a fixed verb and URL
built from the first non-context argument. -/
def helperOverrides (fullName : String) : Option (String → String × String) :=
  if fullName = "s.search" then some (fun arg => ("GET", "search/" ++ arg)) else none

/-- The Lhs loop of `processAssignStmt`: identifiers are collected,
selector expressions are skipped, other shapes are fatal. -/
def processAssignLhs : List GoExpr → Except String (List String)
  | [] => Except.ok []
  | GoExpr.ident n :: rest =>
    match processAssignLhs rest with
    | Except.error e => Except.error e
    | Except.ok ls => Except.ok (n :: ls)
  | GoExpr.selectorExpr _ _ :: rest => processAssignLhs rest
  | _ :: _ => Except.error "unhandled AssignStmt Lhs type"

/-- The per-call-expression state update of the Rhs loop (the `switch
funcName` block followed by the helper-method check). -/
def processRhsCall (receiverName : String) (lhs : List String) (i : Nat)
    (recv funcName : String) (args : List String)
    (st : String × String × String × List LhsRhs) :
    Except String (String × String × String × List LhsRhs) :=
  match st with
  | (hm0, uvn0, hlp0, asgn0) =>
    let afterSwitch : Except String (String × String × List LhsRhs) :=
      if funcName = "addOptions" then
        match args.get? 0 with
        | none => Except.error "panic: index out of range"
        | some a0 =>
          if trimQuotes a0 ≠ a0 then
            match lhs.get? i with
            | none => Except.error "panic: index out of range"
            | some l => Except.ok (hm0, l, asgn0 ++ [{ lhs := l, rhs := trimQuotes a0 }])
          else Except.ok (hm0, a0, asgn0)
      else if funcName = "Sprintf" then
        match args.get? 0, lhs.get? i with
        | some a0, some l => Except.ok (hm0, uvn0, asgn0 ++ [{ lhs := l, rhs := trimQuotes a0 }])
        | _, _ => Except.error "panic: index out of range"
      else if funcName = "NewRequest" then
        match args.get? 0, args.get? 1 with
        | some a0, some a1 => Except.ok (trimQuotes a0, a1, asgn0)
        | _, _ => Except.error "panic: index out of range"
      else if funcName = "NewUploadRequest" then
        match args.get? 0 with
        | some a0 => Except.ok ("POST", a0, asgn0)
        | none => Except.error "panic: index out of range"
      else if funcName = "roundTripWithOptionalFollowRedirect" then
        match args.get? 1 with
        | some a1 => Except.ok ("GET", a1, asgn0)
        | none => Except.error "panic: index out of range"
      else Except.ok (hm0, uvn0, asgn0)
    match afterSwitch with
    | Except.error e => Except.error e
    | Except.ok (hm1, uvn1, asgn1) =>
      if recv = receiverName ∧ args.length > 1 ∧ args.get? 0 = some "ctx" then
        match helperOverrides (recv ++ "." ++ funcName) with
        | some f =>
          match args.get? 1 with
          | none => Except.error "panic: index out of range"
          | some a1 =>
            let hr := f (trimQuotes a1)
            Except.ok (hr.1, "u", hlp0, [{ lhs := "u", rhs := hr.2 }])
        | none =>
          match args.get? 1 with
          | none => Except.error "panic: index out of range"
          | some a1 => Except.ok (hm1, a1, funcName, asgn1)
      else Except.ok (hm1, uvn1, hlp0, asgn1)

/-- The Rhs loop of `processAssignStmt`. -/
def processAssignRhs (receiverName : String) (lhs : List String) :
    Nat → List GoExpr → (String × String × String × List LhsRhs) →
    Except String (String × String × String × List LhsRhs)
  | _, [], st => Except.ok st
  | i, expr :: rest, st =>
    match st with
    | (hm0, uvn0, hlp0, asgn0) =>
      match expr with
      | GoExpr.basicLit v0 =>
        let v := trimQuotes v0
        if strHasPrefix v "?" then processAssignRhs receiverName lhs (i + 1) rest st
        else
          match lhs.get? i with
          | none => Except.error "panic: index out of range"
          | some l =>
            processAssignRhs receiverName lhs (i + 1) rest
              (hm0, uvn0, hlp0, asgn0 ++ [{ lhs := l, rhs := v }])
      | GoExpr.binaryExpr => processAssignRhs receiverName lhs (i + 1) rest st
      | GoExpr.call f fargs =>
        match processCallExpr f fargs with
        | Except.error e => Except.error e
        | Except.ok (recv, funcName, args) =>
          match processRhsCall receiverName lhs i recv funcName args st with
          | Except.error e => Except.error e
          | Except.ok st1 => processAssignRhs receiverName lhs (i + 1) rest st1
      | GoExpr.compositeLit => processAssignRhs receiverName lhs (i + 1) rest st
      | GoExpr.funcLit => processAssignRhs receiverName lhs (i + 1) rest st
      | GoExpr.selectorExpr _ _ => processAssignRhs receiverName lhs (i + 1) rest st
      | GoExpr.unaryExpr _ => processAssignRhs receiverName lhs (i + 1) rest st
      | GoExpr.typeAssertExpr => processAssignRhs receiverName lhs (i + 1) rest st
      | GoExpr.ident _ => processAssignRhs receiverName lhs (i + 1) rest st
      | _ => Except.error "unhandled AssignStmt Rhs type"

/-- `processAssignStmt` from the source: collect Lhs names, then walk the
Rhs expressions; returns (httpMethod, urlVarName, helperMethod,
assignments). -/
def processAssignStmt (receiverName : String) (lhsExprs rhsExprs : List GoExpr) :
    Except String (String × String × String × List LhsRhs) :=
  match processAssignLhs lhsExprs with
  | Except.error e => Except.error e
  | Except.ok lhs => processAssignRhs receiverName lhs 0 rhsExprs ("", "", "", [])

/-- The accumulator of `parseBody` (`bodyData` in the source). -/
structure BodyData where
  receiverName : String
  httpMethod : String
  urlVarName : String
  urlFormats : List String
  assignments : List LhsRhs
  helperMethod : String
deriving DecidableEq, Repr

/-- A fresh accumulator for a method with the given receiver name. -/
def initBody (receiverName : String) : BodyData :=
  { receiverName := receiverName, httpMethod := "", urlVarName := "",
    urlFormats := [], assignments := [], helperMethod := "" }

/-- The conflicting-verbs error of `parseBody` (`%q` adds quotes). -/
def errTwoMethods (a b : String) : String :=
  "found two httpMethod values: " ++ goQuote a ++ " and " ++ goQuote b

/-- The state update of the assignment case of `parseBody`: set the verb. -/
def applyAssignVerb (b : BodyData) (hm : String) : BodyData :=
  if hm ≠ "" then { b with httpMethod := hm } else b

/-- The state update of the assignment case of `parseBody`: set the helper. -/
def applyAssignHelper (b : BodyData) (hlp : String) : BodyData :=
  if hlp ≠ "" then { b with helperMethod := hlp } else b

/-- The state update of the assignment case of `parseBody`: grow the
assignment list. -/
def applyAssignAsgn (b : BodyData) (asgn : List LhsRhs) : BodyData :=
  { b with assignments := b.assignments ++ asgn }

/-- The state update of the assignment case of `parseBody`: a raw string
literal in `urlVarName` position contributes a URL format. -/
def applyAssignUnquote (b : BodyData) (uvn : String) : BodyData :=
  match goUnquote uvn with
  | some raw => { b with urlFormats := b.urlFormats ++ [raw] }
  | none => b

/-- The state update of the assignment case of `parseBody`: the first URL
variable name found makes every matching earlier binding contribute a URL
format. -/
def applyAssignUrlVar (b : BodyData) (uvn : String) : BodyData :=
  if b.urlVarName = "" ∧ uvn ≠ "" then
    { b with
      urlVarName := uvn
      urlFormats := b.urlFormats ++
        ((b.assignments.filter (fun lr => lr.lhs = uvn)).map LhsRhs.rhs) }
  else b

/-- The whole state update of the assignment case of `parseBody` after the
conflict check. -/
def applyAssign (b : BodyData) (hm uvn hlp : String) (asgn : List LhsRhs) : BodyData :=
  applyAssignUrlVar
    (applyAssignUnquote (applyAssignAsgn (applyAssignHelper (applyAssignVerb b hm) hlp) asgn) uvn)
    uvn

/-- The body of the return-statement case of `parseBody` for a returned
call expression. -/
def applyReturnCall (b : BodyData) (recv funcName : String) (args : List String) : BodyData :=
  match args with
  | _a0 :: a1 :: _ =>
    if b.httpMethod = "" ∧ recv = b.receiverName then
      if b.assignments = [] ∧ b.urlFormats = [] then
        { b with
          urlFormats := b.urlFormats ++ [trimQuotes a1]
          helperMethod := funcName }
      else
        b.assignments.foldl
          (fun acc lr =>
            if lr.lhs = a1 then
              { acc with
                urlVarName := a1
                urlFormats := acc.urlFormats ++ [lr.rhs]
                helperMethod := funcName }
            else acc)
          b
    else b
  | _ => b

/-- Whether the return-statement case fails: a same-receiver helper call
whose first argument is not `ctx`. -/
def returnCallCtxError (b : BodyData) (recv : String) (args : List String) : Bool :=
  match args with
  | a0 :: _ :: _ => b.httpMethod = "" ∧ recv = b.receiverName ∧ a0 ≠ "ctx"
  | _ => false

mutual
/-- `parseBody` from the source: fold the statement list through
`parseStmt`, stopping at the first structural error. -/
def parseStmts (b : BodyData) : List GoStmt → Except String BodyData
  | [] => Except.ok b
  | s :: rest =>
    match parseStmt b s with
    | Except.error e => Except.error e
    | Except.ok b1 => parseStmts b1 rest

/-- One statement of `parseBody`'s loop. -/
def parseStmt (b : BodyData) : GoStmt → Except String BodyData
  | GoStmt.assignStmt lhs rhs =>
    match processAssignStmt b.receiverName lhs rhs with
    | Except.error e => Except.error e
    | Except.ok (hm, uvn, hlp, asgn) =>
      if b.httpMethod ≠ "" ∧ hm ≠ "" ∧ b.httpMethod ≠ hm
      then Except.error (errTwoMethods b.httpMethod hm)
      else Except.ok (applyAssign b hm uvn hlp asgn)
  | GoStmt.declStmt => Except.ok b
  | GoStmt.deferStmt => Except.ok b
  | GoStmt.exprStmt => Except.ok b
  | GoStmt.ifStmt body els =>
    match parseStmts b body with
    | Except.error e => Except.error e
    | Except.ok b1 => parseElse b1 els
  | GoStmt.rangeStmt => Except.ok b
  | GoStmt.returnStmt results =>
    match results with
    | [] => Except.ok b
    | r0 :: _ =>
      match r0 with
      | GoExpr.call f fargs =>
        match processCallExpr f fargs with
        | Except.error e => Except.error e
        | Except.ok (recv, funcName, args) =>
          if returnCallCtxError b recv args
          then Except.error "expected helper function to get ctx as first arg"
          else Except.ok (applyReturnCall b recv funcName args)
      | _ => Except.ok b
  | GoStmt.switchStmt => Except.ok b
  | GoStmt.otherStmt t => Except.error ("unhandled stmt type: " ++ t)

/-- `parseIf`'s else handling. -/
def parseElse (b : BodyData) : GoElse → Except String BodyData
  | GoElse.noneElse => Except.ok b
  | GoElse.blockElse body => parseStmts b body
  | GoElse.ifElse body els =>
    match parseStmts b body with
    | Except.error e => Except.error e
    | Except.ok b1 => parseElse b1 els
  | GoElse.otherElse t => Except.error ("unhandled else stmt type " ++ t)
end

/-! ### The service-method scanner (`serviceMethodFromNode`) -/

/-- One extracted method (`serviceMethod` in the source). -/
structure ServiceMethod where
  receiverName : String
  methodName : String
  filename : String
  httpMethod : String
  helper : String
  urls : List String
deriving DecidableEq, Repr

/-- A function declaration as the scanner sees it: the receiver (variable
name and type name, when the receiver is a single `*Ident` field — `none`
models every other receiver shape), the method name and the body. -/
structure GoFuncDecl where
  recv : Option (String × String)
  methodName : String
  body : List GoStmt

/-- `ast.IsExported`: the first character is upper case. -/
def isExported (s : String) : Bool :=
  (s.data.head?.map Char.isUpper).getD false

/-- `filepath.Base` for slash-separated paths. -/
def filepathBase (s : String) : String :=
  String.mk ((s.data.reverse.takeWhile (fun c => c ≠ '/')).reverse)

/-- `serviceMethodFromNode` from internal.go: filters to exported methods
on exported `*Service`/`Client` receivers, runs the body analyzer, and —
when the analyzer fails — returns the method with no resolved information
instead of an error. -/
def serviceMethodFromRecv (filename : String) (decl : GoFuncDecl)
    (recvVar receiverType : String) : Option ServiceMethod :=
  if ¬ (isExported decl.methodName ∧ isExported receiverType) then none
  else if receiverType ≠ "Client" ∧ ¬ strHasSuffix receiverType "Service" then none
  else if receiverType = "Client" ∧ filepathBase filename = "github.go" then none
  else
    let method : ServiceMethod :=
      { receiverName := receiverType, methodName := decl.methodName,
        filename := filename, httpMethod := "", helper := "", urls := [] }
    match parseStmts (initBody recvVar) decl.body with
    | Except.error _ => some method
    | Except.ok bd =>
      some { method with
        httpMethod := bd.httpMethod
        urls := method.urls ++ bd.urlFormats
        helper := if bd.helperMethod ≠ "" then receiverType ++ "." ++ bd.helperMethod else "" }

def serviceMethodFromNode (filename : String) (decl : GoFuncDecl) : Option ServiceMethod :=
  match decl.recv with
  | none => none
  | some (recvVar, receiverType) => serviceMethodFromRecv filename decl recvVar receiverType

/-- **C3.** The spec's scenario A: a body binding
`u := fmt.Sprintf("repos/%v/%v/issues", owner, repo)` followed by
`req := s.client.NewRequest("GET", u, nil)` analyzes to the verb "GET" and
exactly the URL template list ["repos/%v/%v/issues"]. -/
theorem parseBody_scenario_A :
    (parseStmts (initBody "s")
      [GoStmt.assignStmt [GoExpr.ident "u"]
        [GoExpr.call (GoExpr.selectorExpr (GoExpr.ident "fmt") "Sprintf")
          [GoExpr.basicLit "\"repos/%v/%v/issues\"", GoExpr.ident "owner", GoExpr.ident "repo"]],
       GoStmt.assignStmt [GoExpr.ident "req"]
        [GoExpr.call
          (GoExpr.selectorExpr (GoExpr.selectorExpr (GoExpr.ident "s") "client") "NewRequest")
          [GoExpr.basicLit "\"GET\"", GoExpr.ident "u", GoExpr.ident "nil"]]]).map
      (fun bd => (bd.httpMethod, bd.urlFormats)) =
    Except.ok ("GET", ["repos/%v/%v/issues"]) := by
  rfl

theorem applyAssignVerb_httpMethod (b : BodyData) (hm : String) (h : hm ≠ "") :
    (applyAssignVerb b hm).httpMethod = hm := by
  unfold applyAssignVerb
  rw [if_pos h]

theorem applyAssignHelper_httpMethod (b : BodyData) (hlp : String) :
    (applyAssignHelper b hlp).httpMethod = b.httpMethod := by
  unfold applyAssignHelper
  split <;> rfl

theorem applyAssignAsgn_httpMethod (b : BodyData) (asgn : List LhsRhs) :
    (applyAssignAsgn b asgn).httpMethod = b.httpMethod := rfl

theorem applyAssignUnquote_httpMethod (b : BodyData) (uvn : String) :
    (applyAssignUnquote b uvn).httpMethod = b.httpMethod := by
  unfold applyAssignUnquote
  cases goUnquote uvn <;> rfl

theorem applyAssignUrlVar_httpMethod (b : BodyData) (uvn : String) :
    (applyAssignUrlVar b uvn).httpMethod = b.httpMethod := by
  unfold applyAssignUrlVar
  split <;> rfl

theorem applyAssign_httpMethod (b : BodyData) (hm uvn hlp : String)
    (asgn : List LhsRhs) (h : hm ≠ "") :
    (applyAssign b hm uvn hlp asgn).httpMethod = hm := by
  unfold applyAssign
  rw [applyAssignUrlVar_httpMethod, applyAssignUnquote_httpMethod,
    applyAssignAsgn_httpMethod, applyAssignHelper_httpMethod,
    applyAssignVerb_httpMethod b hm h]

theorem applyAssignVerb_receiverName (b : BodyData) (hm : String) :
    (applyAssignVerb b hm).receiverName = b.receiverName := by
  unfold applyAssignVerb
  split <;> rfl

theorem applyAssignHelper_receiverName (b : BodyData) (hlp : String) :
    (applyAssignHelper b hlp).receiverName = b.receiverName := by
  unfold applyAssignHelper
  split <;> rfl

theorem applyAssignUnquote_receiverName (b : BodyData) (uvn : String) :
    (applyAssignUnquote b uvn).receiverName = b.receiverName := by
  unfold applyAssignUnquote
  cases goUnquote uvn <;> rfl

theorem applyAssignUrlVar_receiverName (b : BodyData) (uvn : String) :
    (applyAssignUrlVar b uvn).receiverName = b.receiverName := by
  unfold applyAssignUrlVar
  split <;> rfl

theorem applyAssign_receiverName (b : BodyData) (hm uvn hlp : String)
    (asgn : List LhsRhs) :
    (applyAssign b hm uvn hlp asgn).receiverName = b.receiverName := by
  unfold applyAssign
  rw [applyAssignUrlVar_receiverName, applyAssignUnquote_receiverName]
  show (applyAssignHelper (applyAssignVerb b hm) hlp).receiverName = b.receiverName
  rw [applyAssignHelper_receiverName, applyAssignVerb_receiverName]

/-- **C4.** A body whose two assignment statements bind two different
non-empty HTTP verbs fails immediately with the error naming both values;
binding the same verb twice is not an error. -/
theorem parseBody_conflicting_verbs (r : String)
    (lhs1 rhs1 lhs2 rhs2 : List GoExpr)
    (v1 uvn1 hlp1 : String) (asgn1 : List LhsRhs)
    (v2 uvn2 hlp2 : String) (asgn2 : List LhsRhs)
    (hp1 : processAssignStmt r lhs1 rhs1 = Except.ok (v1, uvn1, hlp1, asgn1))
    (hp2 : processAssignStmt r lhs2 rhs2 = Except.ok (v2, uvn2, hlp2, asgn2))
    (hv1 : v1 ≠ "") (hv2 : v2 ≠ "") :
    (v1 ≠ v2 →
      parseStmts (initBody r) [GoStmt.assignStmt lhs1 rhs1, GoStmt.assignStmt lhs2 rhs2] =
        Except.error (errTwoMethods v1 v2)) ∧
    (v1 = v2 →
      ∃ bd, parseStmts (initBody r) [GoStmt.assignStmt lhs1 rhs1, GoStmt.assignStmt lhs2 rhs2] =
        Except.ok bd) := by
  have hstep1 : parseStmt (initBody r) (GoStmt.assignStmt lhs1 rhs1) =
      Except.ok (applyAssign (initBody r) v1 uvn1 hlp1 asgn1) := by
    unfold parseStmt
    rw [show (initBody r).receiverName = r from rfl, hp1]
    show (if ("" : String) ≠ "" ∧ v1 ≠ "" ∧ ("" : String) ≠ v1
        then Except.error (errTwoMethods "" v1)
        else Except.ok (applyAssign (initBody r) v1 uvn1 hlp1 asgn1)) =
      Except.ok (applyAssign (initBody r) v1 uvn1 hlp1 asgn1)
    rw [if_neg (fun hcon => hcon.1 rfl)]
  have hhm : (applyAssign (initBody r) v1 uvn1 hlp1 asgn1).httpMethod = v1 :=
    applyAssign_httpMethod _ _ _ _ _ hv1
  have hrecv2 : (applyAssign (initBody r) v1 uvn1 hlp1 asgn1).receiverName = r :=
    applyAssign_receiverName _ _ _ _ _
  constructor
  · intro hne
    show (match parseStmt (initBody r) (GoStmt.assignStmt lhs1 rhs1) with
      | Except.error e => Except.error e
      | Except.ok b1 => parseStmts b1 [GoStmt.assignStmt lhs2 rhs2]) =
      Except.error (errTwoMethods v1 v2)
    rw [hstep1]
    show (match parseStmt (applyAssign (initBody r) v1 uvn1 hlp1 asgn1)
        (GoStmt.assignStmt lhs2 rhs2) with
      | Except.error e => Except.error e
      | Except.ok b1 => parseStmts b1 []) =
      Except.error (errTwoMethods v1 v2)
    have hstep2 : parseStmt (applyAssign (initBody r) v1 uvn1 hlp1 asgn1)
        (GoStmt.assignStmt lhs2 rhs2) = Except.error (errTwoMethods v1 v2) := by
      unfold parseStmt
      rw [hrecv2, hp2]
      show (if (applyAssign (initBody r) v1 uvn1 hlp1 asgn1).httpMethod ≠ "" ∧ v2 ≠ "" ∧
            (applyAssign (initBody r) v1 uvn1 hlp1 asgn1).httpMethod ≠ v2
          then Except.error
            (errTwoMethods (applyAssign (initBody r) v1 uvn1 hlp1 asgn1).httpMethod v2)
          else Except.ok
            (applyAssign (applyAssign (initBody r) v1 uvn1 hlp1 asgn1) v2 uvn2 hlp2 asgn2)) =
        Except.error (errTwoMethods v1 v2)
      rw [hhm]
      rw [if_pos ⟨hv1, hv2, hne⟩]
    rw [hstep2]
  · intro heq
    refine ⟨applyAssign (applyAssign (initBody r) v1 uvn1 hlp1 asgn1) v2 uvn2 hlp2 asgn2, ?_⟩
    show (match parseStmt (initBody r) (GoStmt.assignStmt lhs1 rhs1) with
      | Except.error e => Except.error e
      | Except.ok b1 => parseStmts b1 [GoStmt.assignStmt lhs2 rhs2]) = _
    rw [hstep1]
    show (match parseStmt (applyAssign (initBody r) v1 uvn1 hlp1 asgn1)
        (GoStmt.assignStmt lhs2 rhs2) with
      | Except.error e => Except.error e
      | Except.ok b1 => parseStmts b1 []) = _
    have hstep2 : parseStmt (applyAssign (initBody r) v1 uvn1 hlp1 asgn1)
        (GoStmt.assignStmt lhs2 rhs2) =
        Except.ok (applyAssign (applyAssign (initBody r) v1 uvn1 hlp1 asgn1) v2 uvn2 hlp2 asgn2) := by
      unfold parseStmt
      rw [hrecv2, hp2]
      show (if (applyAssign (initBody r) v1 uvn1 hlp1 asgn1).httpMethod ≠ "" ∧ v2 ≠ "" ∧
            (applyAssign (initBody r) v1 uvn1 hlp1 asgn1).httpMethod ≠ v2
          then Except.error
            (errTwoMethods (applyAssign (initBody r) v1 uvn1 hlp1 asgn1).httpMethod v2)
          else Except.ok
            (applyAssign (applyAssign (initBody r) v1 uvn1 hlp1 asgn1) v2 uvn2 hlp2 asgn2)) = _
      rw [hhm]
      rw [if_neg (fun hcon => hcon.2.2 heq)]
    rw [hstep2]
    rfl

/-- Witness for C4: a body issuing `NewRequest("GET", u, nil)` and then
`NewRequest("POST", u, nil)` fails with the error naming both verbs. -/
theorem parseBody_conflicting_verbs_witness :
    parseStmts (initBody "s")
      [GoStmt.assignStmt [GoExpr.ident "req"]
        [GoExpr.call
          (GoExpr.selectorExpr (GoExpr.selectorExpr (GoExpr.ident "s") "client") "NewRequest")
          [GoExpr.basicLit "\"GET\"", GoExpr.ident "u", GoExpr.ident "nil"]],
       GoStmt.assignStmt [GoExpr.ident "req2"]
        [GoExpr.call
          (GoExpr.selectorExpr (GoExpr.selectorExpr (GoExpr.ident "s") "client") "NewRequest")
          [GoExpr.basicLit "\"POST\"", GoExpr.ident "u", GoExpr.ident "nil"]]] =
    Except.error (errTwoMethods "GET" "POST") :=
  (parseBody_conflicting_verbs "s"
    [GoExpr.ident "req"]
    [GoExpr.call
      (GoExpr.selectorExpr (GoExpr.selectorExpr (GoExpr.ident "s") "client") "NewRequest")
      [GoExpr.basicLit "\"GET\"", GoExpr.ident "u", GoExpr.ident "nil"]]
    [GoExpr.ident "req2"]
    [GoExpr.call
      (GoExpr.selectorExpr (GoExpr.selectorExpr (GoExpr.ident "s") "client") "NewRequest")
      [GoExpr.basicLit "\"POST\"", GoExpr.ident "u", GoExpr.ident "nil"]]
    "GET" "u" "" [] "POST" "u" "" []
    (by rfl) (by rfl) (by decide) (by decide)).1 (by decide)

/-- A statement list containing an unrecognized statement shape always
fails to parse. -/
theorem parseStmts_error_of_mem_other (t : String) :
    ∀ (stmts : List GoStmt) (b : BodyData), GoStmt.otherStmt t ∈ stmts →
      ∃ e, parseStmts b stmts = Except.error e := by
  intro stmts
  induction stmts with
  | nil =>
    intro b hmem
    cases hmem
  | cons s rest ih =>
    intro b hmem
    rcases List.mem_cons.mp hmem with rfl | hmem2
    · exact ⟨"unhandled stmt type: " ++ t, by rfl⟩
    · show ∃ e, (match parseStmt b s with
        | Except.error e => Except.error e
        | Except.ok b1 => parseStmts b1 rest) = Except.error e
      cases hs : parseStmt b s with
      | error e => exact ⟨e, rfl⟩
      | ok b1 =>
        obtain ⟨e, he⟩ := ih b1 hmem2
        exact ⟨e, he⟩

/-- **C8 (amended).** For every exported service method (exported name, an
exported `*...Service` receiver) whose body contains a statement shape the
analyzer has no defined handling for, body analysis fails with a structural
error — but `serviceMethodFromNode` swallows that error and includes the
method in the inventory with no resolved information (empty verb, no URL
templates, no helper reference) rather than reporting it as an error. -/
theorem serviceMethod_unrecognized_stmt_included
    (filename : String) (decl : GoFuncDecl) (rv rt t : String)
    (hrecv : decl.recv = some (rv, rt))
    (hexpM : isExported decl.methodName = true)
    (hexpT : isExported rt = true)
    (hsvc : strHasSuffix rt "Service" = true)
    (hmem : GoStmt.otherStmt t ∈ decl.body) :
    (∃ e, parseStmts (initBody rv) decl.body = Except.error e) ∧
    serviceMethodFromNode filename decl =
      some { receiverName := rt, methodName := decl.methodName,
             filename := filename, httpMethod := "", helper := "", urls := [] } := by
  obtain ⟨e, he⟩ := parseStmts_error_of_mem_other t decl.body (initBody rv) hmem
  refine ⟨⟨e, he⟩, ?_⟩
  unfold serviceMethodFromNode
  rw [hrecv]
  have hnotClient : rt ≠ "Client" := by
    intro hEq
    rw [hEq] at hsvc
    exact absurd hsvc (by decide)
  show serviceMethodFromRecv filename decl rv rt = _
  unfold serviceMethodFromRecv
  rw [if_neg (by
    intro hcon
    exact hcon ⟨hexpM, hexpT⟩)]
  rw [if_neg (by
    intro hcon
    exact hcon.2 hsvc)]
  rw [if_neg (by
    intro hcon
    exact hnotClient hcon.1)]
  rw [he]

/-- Witness for C8 (amended) at a concrete method declaration. -/
theorem serviceMethod_unrecognized_stmt_included_witness :
    (∃ e, parseStmts (initBody "s") [GoStmt.otherStmt "*ast.GoStmt"] = Except.error e) ∧
    serviceMethodFromNode "pulls.go"
      { recv := some ("s", "PullRequestsService"), methodName := "Merge",
        body := [GoStmt.otherStmt "*ast.GoStmt"] } =
      some { receiverName := "PullRequestsService", methodName := "Merge",
             filename := "pulls.go", httpMethod := "", helper := "", urls := [] } :=
  serviceMethod_unrecognized_stmt_included "pulls.go"
    { recv := some ("s", "PullRequestsService"), methodName := "Merge",
      body := [GoStmt.otherStmt "*ast.GoStmt"] }
    "s" "PullRequestsService" "*ast.GoStmt"
    (by rfl) (by decide) (by decide) (by decide) (List.mem_cons_self _ _)

/-- Counterexample for C8 as originally stated: a concrete exported method
whose body is a single unhandled `for` statement is NOT reported as an
error — body analysis fails, but the scanner silently includes the method
with no resolved information. -/
theorem serviceMethod_unrecognized_stmt_counterexample :
    parseStmts (initBody "s") [GoStmt.otherStmt "*ast.ForStmt"] =
      Except.error ("unhandled stmt type: " ++ "*ast.ForStmt") ∧
    serviceMethodFromNode "activity.go"
      { recv := some ("s", "ActivityService"), methodName := "ListFeeds",
        body := [GoStmt.otherStmt "*ast.ForStmt"] } =
      some { receiverName := "ActivityService", methodName := "ListFeeds",
             filename := "activity.go", httpMethod := "", helper := "", urls := [] } := by
  constructor
  · rfl
  · rfl

/-! ### The helper-resolution pass (`resolveHelpers`)

`resolveHelpers` iterates over the endpoint map (a Go map, so the
iteration order is unspecified — it is an explicit `order` parameter here)
and, for every endpoint with an empty verb and a helper reference, copies
the referenced endpoint's verb — mutating the map in place as it goes — or
fails when the referenced endpoint is absent or has an empty verb at that
moment.  (The `%#v` dump of the endpoint appended to the empty-verb error
text is not modelled.) -/

/-- One extracted endpoint (`Endpoint` in the source; the comment-line
fields are irrelevant to resolution and omitted). -/
structure Endpoint where
  endpointName : String
  filename : String
  serviceName : String
  urlFormats : List String
  httpMethod : String
  helperMethod : String
deriving DecidableEq, Repr

/-- The not-found error of `resolveHelpers`. -/
def errHelperNotFound (fullName k : String) : String :=
  "unable to find helper method " ++ goQuote fullName ++ " for " ++ goQuote k

/-- The empty-verb error of `resolveHelpers`. -/
def errHelperEmpty (fullName k : String) : String :=
  "helper method " ++ goQuote fullName ++ " for " ++ goQuote k ++ " has empty httpMethod"

/-- The loop body of `resolveHelpers` for one key of the endpoint map. -/
def resolveHelperStep (m : List (String × Endpoint)) (k : String) :
    Except String (List (String × Endpoint)) :=
  match alistLookup m k with
  | none => Except.ok m
  | some v =>
    if v.httpMethod = "" ∧ v.helperMethod ≠ "" then
      match alistLookup m (v.serviceName ++ "." ++ v.helperMethod) with
      | none => Except.error (errHelperNotFound (v.serviceName ++ "." ++ v.helperMethod) k)
      | some hm =>
        if hm.httpMethod = ""
        then Except.error (errHelperEmpty (v.serviceName ++ "." ++ v.helperMethod) k)
        else Except.ok (alistInsert m k { v with httpMethod := hm.httpMethod })
    else Except.ok m

/-- `resolveHelpers` from the source, with the map iteration order
explicit. -/
def resolveHelpers (order : List String) (m : List (String × Endpoint)) :
    Except String (List (String × Endpoint)) :=
  match order with
  | [] => Except.ok m
  | k :: rest =>
    match resolveHelperStep m k with
    | Except.error e => Except.error e
    | Except.ok m1 => resolveHelpers rest m1

/-- **C9 (amended).** When the pass reaches a method whose verb is empty
and whose helper reference is set, the outcome is decided by the state of
the map at that moment: a missing referenced method fails with an error
naming the link; a referenced method whose verb is empty at that moment
fails with an error naming the link; a referenced method whose verb is
non-empty at that moment (possibly itself just copied earlier in the same
pass) hands its verb to the method.  Because the map is mutated during
iteration, whether a chain of two hops resolves or fails depends on the
map iteration order (see the counterexample). -/
theorem resolveHelpers_step_cases (m : List (String × Endpoint)) (k : String)
    (rest : List String) (v : Endpoint)
    (hk : alistLookup m k = some v)
    (hempty : v.httpMethod = "") (hhelper : v.helperMethod ≠ "") :
    (alistLookup m (v.serviceName ++ "." ++ v.helperMethod) = none →
      resolveHelpers (k :: rest) m =
        Except.error (errHelperNotFound (v.serviceName ++ "." ++ v.helperMethod) k)) ∧
    (∀ hm, alistLookup m (v.serviceName ++ "." ++ v.helperMethod) = some hm →
      hm.httpMethod = "" →
      resolveHelpers (k :: rest) m =
        Except.error (errHelperEmpty (v.serviceName ++ "." ++ v.helperMethod) k)) ∧
    (∀ hm, alistLookup m (v.serviceName ++ "." ++ v.helperMethod) = some hm →
      hm.httpMethod ≠ "" →
      resolveHelpers (k :: rest) m =
        resolveHelpers rest (alistInsert m k { v with httpMethod := hm.httpMethod })) := by
  have hstep0 : resolveHelperStep m k =
      (match alistLookup m (v.serviceName ++ "." ++ v.helperMethod) with
        | none => Except.error (errHelperNotFound (v.serviceName ++ "." ++ v.helperMethod) k)
        | some hm =>
          if hm.httpMethod = ""
          then Except.error (errHelperEmpty (v.serviceName ++ "." ++ v.helperMethod) k)
          else Except.ok (alistInsert m k { v with httpMethod := hm.httpMethod })) := by
    unfold resolveHelperStep
    rw [hk]
    show (if v.httpMethod = "" ∧ v.helperMethod ≠ "" then _ else Except.ok m) = _
    rw [if_pos ⟨hempty, hhelper⟩]
  refine ⟨?_, ?_, ?_⟩
  · intro hnone
    show (match resolveHelperStep m k with
      | Except.error e => Except.error e
      | Except.ok m1 => resolveHelpers rest m1) = _
    rw [hstep0, hnone]
  · intro hm hsome hzero
    show (match resolveHelperStep m k with
      | Except.error e => Except.error e
      | Except.ok m1 => resolveHelpers rest m1) = _
    rw [hstep0, hsome]
    show (match (if hm.httpMethod = ""
        then Except.error (errHelperEmpty (v.serviceName ++ "." ++ v.helperMethod) k)
        else Except.ok (alistInsert m k { v with httpMethod := hm.httpMethod })) with
      | Except.error e => Except.error e
      | Except.ok m1 => resolveHelpers rest m1) = _
    rw [if_pos hzero]
  · intro hm hsome hnonzero
    show (match resolveHelperStep m k with
      | Except.error e => Except.error e
      | Except.ok m1 => resolveHelpers rest m1) = _
    rw [hstep0, hsome]
    show (match (if hm.httpMethod = ""
        then Except.error (errHelperEmpty (v.serviceName ++ "." ++ v.helperMethod) k)
        else Except.ok (alistInsert m k { v with httpMethod := hm.httpMethod })) with
      | Except.error e => Except.error e
      | Except.ok m1 => resolveHelpers rest m1) = _
    rw [if_neg hnonzero]

/-- The endpoint map of the helper-chain example: A delegates to B, B
delegates to C, only C carries a verb. -/
def chainMap : List (String × Endpoint) :=
  [("S.A", { endpointName := "A", filename := "f.go", serviceName := "S",
             urlFormats := ["a"], httpMethod := "", helperMethod := "B" }),
   ("S.B", { endpointName := "B", filename := "f.go", serviceName := "S",
             urlFormats := ["b"], httpMethod := "", helperMethod := "C" }),
   ("S.C", { endpointName := "C", filename := "f.go", serviceName := "S",
             urlFormats := ["c"], httpMethod := "GET", helperMethod := "" })]

/-- Witness for C9 (amended): processing "S.A" first fails, because its
referenced helper "S.B" has an empty verb at that moment. -/
theorem resolveHelpers_step_cases_witness :
    resolveHelpers ["S.A", "S.B", "S.C"] chainMap =
      Except.error (errHelperEmpty "S.B" "S.A") :=
  (resolveHelpers_step_cases chainMap "S.A" ["S.B", "S.C"]
      { endpointName := "A", filename := "f.go", serviceName := "S",
        urlFormats := ["a"], httpMethod := "", helperMethod := "B" }
      (by rfl) (by rfl) (by decide)).2.1
    { endpointName := "B", filename := "f.go", serviceName := "S",
      urlFormats := ["b"], httpMethod := "", helperMethod := "C" }
    (by rfl) (by rfl)

/-- Counterexample for C9 as originally stated: under the iteration order
"S.B", "S.A", "S.C" the same map resolves without error, and "S.A"
receives the verb "GET" through the two-hop chain A → B → C — although
A's referenced method "S.B" had an empty verb before the pass, so the
claim's "fails with an error … helper chains longer than one hop are
never followed" does not hold for this run. -/
theorem resolveHelpers_chain_counterexample :
    (alistLookup chainMap "S.B").map Endpoint.httpMethod = some "" ∧
    resolveHelpers ["S.B", "S.A", "S.C"] chainMap =
      Except.ok
        [("S.A", { endpointName := "A", filename := "f.go", serviceName := "S",
                   urlFormats := ["a"], httpMethod := "GET", helperMethod := "B" }),
         ("S.B", { endpointName := "B", filename := "f.go", serviceName := "S",
                   urlFormats := ["b"], httpMethod := "GET", helperMethod := "C" }),
         ("S.C", { endpointName := "C", filename := "f.go", serviceName := "S",
                   urlFormats := ["c"], httpMethod := "GET", helperMethod := "" })] := by
  constructor
  · rfl
  · rfl

end GoGithub
